import Mathlib

/-!
Verification of the entity-extraction and multi-hop query engine of the
med-graph-rag repository.

Texts are modelled as `List Char` (a Python `str`), character offsets as `Nat`
or (where the source can produce `-1`) as `Int`, and float confidences as `ℚ`
(the source only ever uses the exactly representable constants 1.0, 0.95, 0.5).
The FlashText `KeywordProcessor` library (external to the repository) is
modelled by its documented semantics: whole-word, longest-match, left-to-right
non-overlapping keyword scanning, with the case-insensitive variant lowering
both the stored keywords and the scanned text.  `collections.Counter.most_common`
is modelled by its documented semantics: sort by count descending, elements
with equal counts in first-encountered order (a stable sort on the
insertion-ordered items).
-/

set_option maxRecDepth 10000

/-- `ExtractedEntity` from `src/schema/entity.py` as used by the extractors.
`start_char`/`end_char` are `Int` because `BioBERTEntityExtractor` computes
them with Python `str.find`, which returns `-1` on failure. -/
structure ExtractedEntity where
  mention_text : List Char
  canonical_id : String
  entity_type : String
  start_char : Int
  end_char : Int
  chunk_id : String
  confidence : ℚ
  extraction_method : String
deriving DecidableEq, Repr

/-- `Relationship` from `src/schema/relationship.py` (the fields used by the
relationship extractors). -/
structure Relationship where
  subject_id : String
  predicate : String
  object_id : String
  evidence_text : List Char
  chunk_id : String
  confidence : ℚ
  extraction_method : String
deriving DecidableEq, Repr

/-- A reference catalog record (`BaseMedicalEntity`): the fields the lookup
index builders read. -/
structure MedEntity where
  entity_id : String
  name : List Char
  synonyms : List (List Char)
  abbreviations : List (List Char)
deriving DecidableEq, Repr

/-- `EntityCollection` from `src/schema/entity.py`: eight per-type buckets.
Python dicts keyed by `entity_id` are modelled as lists in insertion order
(`collection.values()` iterates in insertion order). -/
structure EntityCollectionS where
  diseases : List MedEntity := []
  genes : List MedEntity := []
  drugs : List MedEntity := []
  proteins : List MedEntity := []
  symptoms : List MedEntity := []
  procedures : List MedEntity := []
  biomarkers : List MedEntity := []
  pathways : List MedEntity := []
deriving DecidableEq, Repr

/-! ### Python string helpers -/

/-- Python `str.lower` (ASCII fragment, enough for the catalog surface forms). -/
def toLowerStr (s : List Char) : List Char := s.map Char.toLower

/-- Python `str.isupper`: at least one cased character and no lowercase cased
character (letters are the cased characters we model). -/
def isUpperStr (s : List Char) : Bool :=
  s.any Char.isAlpha && s.all (fun c => !c.isAlpha || c.isUpper)

/-- `text[a:b]` for `0 ≤ a ≤ b`. -/
def sliceStr (s : List Char) (a b : Nat) : List Char := (s.drop a).take (b - a)

/-- Python `str.strip()` (default whitespace strip). -/
def stripStr (s : List Char) : List Char :=
  ((s.dropWhile Char.isWhitespace).reverse.dropWhile Char.isWhitespace).reverse

/-- Does `kw` occur at offset `i` of `text`? -/
def matchesAt (text kw : List Char) (i : Nat) : Bool :=
  (text.drop i).take kw.length == kw

/-- Python `str.find`/`str.index(sub, start)`: offset of the first occurrence
of `sub` at or after `start`, `none` when there is none.  Fuel-structured so
that it reduces in the kernel; the wrapper supplies enough fuel. -/
def indexOfAux (text sub : List Char) : Nat → Nat → Option Nat
  | 0, _ => none
  | fuel + 1, i =>
    if i + sub.length ≤ text.length then
      if matchesAt text sub i then some i
      else indexOfAux text sub fuel (i + 1)
    else none

def indexOfFrom (text sub : List Char) (start : Nat) : Option Nat :=
  indexOfAux text sub (text.length + 1) start

/-- Python `str.replace("##", "")`: delete occurrences of `##` left to right. -/
def removeHashes : List Char → List Char
  | '#' :: '#' :: rest => removeHashes rest
  | c :: rest => c :: removeHashes rest
  | [] => []

/-! ### FlashText keyword-processor model

A processor is an association list from keyword (a `List Char`) to the
`(entity_id, entity_type)` value the builders attach (the source encodes the
value as the string `entity_id + "|" + entity_type` and splits it back on `|`
at extraction time; we keep the decoded pair).  `add_keyword` ignores empty
keywords (as FlashText does) and appends; on duplicate keywords the later
entry wins at lookup, matching Python dict overwrite. -/

abbrev KwVal := String × String

abbrev Processor := List (List Char × KwVal)

def addKeyword (p : Processor) (kw : List Char) (v : KwVal) : Processor :=
  if kw.isEmpty then p else p ++ [(kw, v)]

/-- FlashText word characters: ASCII letters, digits and `_`. -/
def wordChar (c : Char) : Bool := c.isAlphanum || c == '_'

/-- A keyword occurrence may only start at the text start or after a
non-word character. -/
def startOk (text : List Char) (i : Nat) : Bool :=
  i == 0 || !(wordChar (text.getD (i - 1) ' '))

/-- A keyword occurrence must end at the text end or before a non-word
character. -/
def endOk (text : List Char) (e : Nat) : Bool :=
  e == text.length || !(wordChar (text.getD e ' '))

/-- Is `(kw, v)` a viable match starting at `i`? -/
def candOk (text : List Char) (i : Nat) (kw : List Char) : Bool :=
  !kw.isEmpty && matchesAt text kw i && endOk text (i + kw.length)

/-- Keyword length of a selection-fold accumulator (`0` when empty). -/
def accLen (acc : Option (List Char × KwVal)) : Nat :=
  match acc with
  | none => 0
  | some a => a.1.length

/-- One step of the longest-match selection fold; on equal lengths the later
entry wins (dict overwrite). -/
def pickLonger (text : List Char) (i : Nat) (acc : Option (List Char × KwVal))
    (e : List Char × KwVal) : Option (List Char × KwVal) :=
  if candOk text i e.1 && decide (accLen acc ≤ e.1.length) then some e else acc

/-- The longest registered keyword matching at `i` with a word boundary after
it. -/
def bestMatchAt (kws : Processor) (text : List Char) (i : Nat) :
    Option (List Char × KwVal) :=
  kws.foldl (pickLonger text i) none

/-- The FlashText scan: left to right, matches start only at word starts, the
longest whole-word match is taken and the scan resumes after it.  Fuel-
structured (fuel `text.length + 1` always suffices since every step advances
the position). -/
def scanAux (kws : Processor) (text : List Char) : Nat → Nat → List (KwVal × Nat × Nat)
  | 0, _ => []
  | fuel + 1, i =>
    if i < text.length then
      if startOk text i then
        match bestMatchAt kws text i with
        | some (kw, v) => (v, i, i + kw.length) :: scanAux kws text fuel (i + kw.length)
        | none => scanAux kws text fuel (i + 1)
      else scanAux kws text fuel (i + 1)
    else []

/-- `KeywordProcessor.extract_keywords(text, span_info=True)` for a
case-sensitive processor. -/
def extractKeywordsCS (kws : Processor) (text : List Char) : List (KwVal × Nat × Nat) :=
  scanAux kws text (text.length + 1) 0

/-- The case-insensitive variant lowers the scanned text (keywords were
lowered when added); spans index the original text, which has the same
length. -/
def extractKeywordsCI (kws : Processor) (text : List Char) : List (KwVal × Nat × Nat) :=
  scanAux kws (toLowerStr text) ((toLowerStr text).length + 1) 0

/-! ### `EntityExtractor` (`src/src/ingestion/extractor.py`) -/

namespace EntityExtractor

/-- The gene stop-list of `EntityExtractor._build_lookup_index`. -/
def GENE_STOPWORDS : List (List Char) :=
  ["A", "AN", "AND", "AS", "AT", "BE", "BY", "FOR", "FROM", "HAS", "HE",
   "IF", "IN", "IS", "IT", "ITS", "OF", "ON", "OR", "THAT", "THE", "TO",
   "WAS", "WILL", "WITH", "ARE", "NOT", "BUT", "CAN", "HAD", "HER", "WE",
   "WHEN", "WHERE", "WHO", "MAY", "SO", "UP", "OUT", "NO", "THAN",
   "ALL"].map String.toList

/-- The pair of processors built by `_build_lookup_index`: the
case-insensitive one for diseases, drugs and proteins, the case-sensitive
one for genes. -/
structure Index where
  keywordProcessor : Processor := []
  geneProcessor : Processor := []
deriving DecidableEq, Repr

/-- How `_build_lookup_index` registers one catalog entity of a given type. -/
def addEntityKeywords (ty : String) (st : Index) (e : MedEntity) : Index :=
  if ty == "gene" then
    let gp :=
      if isUpperStr e.name && decide (e.name ∉ GENE_STOPWORDS) && decide (2 ≤ e.name.length)
      then addKeyword st.geneProcessor e.name (e.entity_id, ty)
      else st.geneProcessor
    let gp := (e.synonyms ++ e.abbreviations).foldl
      (fun p v =>
        if isUpperStr v && decide (3 ≤ v.length) && decide (v ∉ GENE_STOPWORDS)
        then addKeyword p v (e.entity_id, ty) else p) gp
    { st with geneProcessor := gp }
  else
    let kp := addKeyword st.keywordProcessor (toLowerStr e.name) (e.entity_id, ty)
    let kp := (e.synonyms ++ e.abbreviations).foldl
      (fun p v => if 2 < v.length then addKeyword p (toLowerStr v) (e.entity_id, ty) else p) kp
    { st with keywordProcessor := kp }

def addTypeKeywords (st : Index) (tyColl : String × List MedEntity) : Index :=
  tyColl.2.foldl (addEntityKeywords tyColl.1) st

/-- `EntityExtractor._build_lookup_index`: registers diseases, genes, drugs
and proteins. -/
def buildLookupIndex (c : EntityCollectionS) : Index :=
  [("disease", c.diseases), ("gene", c.genes), ("drug", c.drugs),
   ("protein", c.proteins)].foldl addTypeKeywords {}

/-- Map one case-insensitive scan hit to an `ExtractedEntity`. -/
def ciEntity (text : List Char) (cid : String) (hit : KwVal × Nat × Nat) :
    ExtractedEntity :=
  { mention_text := sliceStr text hit.2.1 hit.2.2
    canonical_id := hit.1.1
    entity_type := hit.1.2
    start_char := hit.2.1
    end_char := hit.2.2
    chunk_id := cid
    confidence := 1
    extraction_method := "flashtext" }

/-- Map one case-sensitive (gene) scan hit to an `ExtractedEntity`. -/
def csEntity (text : List Char) (cid : String) (hit : KwVal × Nat × Nat) :
    ExtractedEntity :=
  { mention_text := sliceStr text hit.2.1 hit.2.2
    canonical_id := hit.1.1
    entity_type := hit.1.2
    start_char := hit.2.1
    end_char := hit.2.2
    chunk_id := cid
    confidence := 1
    extraction_method := "flashtext_case_sensitive" }

/-- `EntityExtractor.extract_entities`: the disease/drug/protein scan followed
by the gene scan. -/
def extractEntities (idx : Index) (text : List Char) (cid : String) :
    List ExtractedEntity :=
  (extractKeywordsCI idx.keywordProcessor text).map (ciEntity text cid)
    ++ (extractKeywordsCS idx.geneProcessor text).map (csEntity text cid)

end EntityExtractor

/-! ### `FlashTextExtractor` (`src/src/ingestion/hybrid_extractor.py`)

Identical scan logic, but `_build_lookup_index` has
`if entity_type == "gene": pass` — the gene processor is never populated
(the module's extended stop-list is dead code on this path). -/

namespace FlashTextExtractor

/-- `FlashTextExtractor._build_lookup_index`, per entity. -/
def addEntityKeywords (ty : String) (st : EntityExtractor.Index) (e : MedEntity) :
    EntityExtractor.Index :=
  if ty == "gene" then
    st
  else
    let kp := addKeyword st.keywordProcessor (toLowerStr e.name) (e.entity_id, ty)
    let kp := (e.synonyms ++ e.abbreviations).foldl
      (fun p v => if 2 < v.length then addKeyword p (toLowerStr v) (e.entity_id, ty) else p) kp
    { st with keywordProcessor := kp }

def addTypeKeywords (st : EntityExtractor.Index) (tyColl : String × List MedEntity) :
    EntityExtractor.Index :=
  tyColl.2.foldl (addEntityKeywords tyColl.1) st

def buildLookupIndex (c : EntityCollectionS) : EntityExtractor.Index :=
  [("disease", c.diseases), ("gene", c.genes), ("drug", c.drugs),
   ("protein", c.proteins)].foldl addTypeKeywords {}

/-- `FlashTextExtractor.extract_entities` (same body as
`EntityExtractor.extract_entities`). -/
def extractEntities (idx : EntityExtractor.Index) (text : List Char) (cid : String) :
    List ExtractedEntity :=
  (extractKeywordsCI idx.keywordProcessor text).map (EntityExtractor.ciEntity text cid)
    ++ (extractKeywordsCS idx.geneProcessor text).map (EntityExtractor.csEntity text cid)

end FlashTextExtractor

/-! ### `BioBERTEntityExtractor` (`src/src/ingestion/extractor.py`)

The tokenizer and token-classification model are external; a call's model
output is an oracle input: the token list with each token's predicted label id
(`0` outside, `1` chemical/drug, `3` disease; other ids are ignored by the
source's `label_map`) and the logit the source stores as confidence.  The span
reconstruction, entity linking and `text.find`-based offsets are the
repository's code. -/

namespace BioBERT

/-- One tokenizer/model output item: (token text, label id, stored logit). -/
structure Tok where
  piece : List Char
  label : Nat
  logit : ℚ
deriving DecidableEq, Repr

/-- A candidate span accumulated from consecutive equal-label tokens. -/
structure Cand where
  text : List Char
  ty : String
  conf : ℚ
deriving DecidableEq, Repr

def labelMap (l : Nat) : Option String :=
  if l == 1 then some "drug" else if l == 3 then some "disease" else none

/-- The token loop of `BioBERTEntityExtractor.extract_entities`: flush on
label 0, extend on a mapped label of the same type, restart on a mapped label
of a different type, ignore unmapped labels. -/
def gatherCands : List Tok → Option Cand → List Cand
  | [], none => []
  | [], some c => [c]
  | t :: rest, cur =>
    if t.label == 0 then
      match cur with
      | some c => c :: gatherCands rest none
      | none => gatherCands rest none
    else
      match labelMap t.label with
      | none => gatherCands rest cur
      | some ty =>
        match cur with
        | some c =>
          if c.ty ≠ ty then
            c :: gatherCands rest (some ⟨removeHashes t.piece, ty, t.logit⟩)
          else
            gatherCands rest (some { c with text := c.text ++ removeHashes t.piece })
        | none => gatherCands rest (some ⟨removeHashes t.piece, ty, t.logit⟩)

/-- `BioBERTEntityExtractor._build_entity_index`: lowercase name and synonyms
of diseases, genes and drugs mapped to `(entity_id, entity_type)`; later
insertions overwrite (Python dict). -/
def buildEntityIndex (c : EntityCollectionS) : List (List Char × KwVal) :=
  [("disease", c.diseases), ("gene", c.genes), ("drug", c.drugs)].foldl
    (fun acc tyColl =>
      tyColl.2.foldl
        (fun acc e =>
          let acc := acc ++ [(toLowerStr e.name, (e.entity_id, tyColl.1))]
          e.synonyms.foldl (fun acc s => acc ++ [(toLowerStr s, (e.entity_id, tyColl.1))]) acc)
        acc)
    []

/-- Python dict lookup on the association list (later entries overwrite). -/
def dictLookup (idx : List (List Char × KwVal)) (k : List Char) : Option KwVal :=
  (idx.reverse.find? (fun p => p.1 == k)).map (·.2)

/-- Python `int`-valued `str.find`: `-1` when absent. -/
def pyFind (text sub : List Char) : Int :=
  match indexOfFrom text sub 0 with
  | some i => (i : Int)
  | none => -1

/-- Linking and offset computation of `BioBERTEntityExtractor.extract_entities`:
candidates whose lowercased text misses the index are dropped; offsets come
from `text.find(candidate_text)`. -/
def linkCand (idx : List (List Char × KwVal)) (text : List Char) (cid : String)
    (c : Cand) : Option ExtractedEntity :=
  match dictLookup idx (toLowerStr c.text) with
  | none => none
  | some (eid, ty) =>
    some { mention_text := c.text
           canonical_id := eid
           entity_type := ty
           start_char := pyFind text c.text
           end_char := pyFind text c.text + c.text.length
           chunk_id := cid
           confidence := c.conf
           extraction_method := "biobert" }

/-- `BioBERTEntityExtractor.extract_entities` given the model's token/label
output for `text`. -/
def extractEntities (c : EntityCollectionS) (toks : List Tok) (text : List Char)
    (cid : String) : List ExtractedEntity :=
  (gatherCands toks none).filterMap (linkCand (buildEntityIndex c) text cid)

end BioBERT

/-! ### `RelationshipExtractor` (`src/src/ingestion/hybrid_extractor.py`)

`extract_relationships` splits on runs of `.!?`, locates each non-blank piece
with `text.index(sent, current_pos)` (skipping pieces the index lookup cannot
find), selects the mentions whose `start_char` lies in the sentence range, and
emits an `ASSOCIATED_WITH` relationship at confidence 0.5 for every ordered
pair (in list order) whose types are drug/disease or gene/disease in either
order.  (The `extractor.py` copy is identical except that it lacks the
`(disease, gene)` order and the `try/except` around `text.index`.) -/

namespace RelationshipExtractor

def isDelim (c : Char) : Bool := c == '.' || c == '!' || c == '?'

/-- `re.split(r"[.!?]+", text)`: split on maximal delimiter runs. -/
def splitAux : List Char → List Char → Bool → List (List Char)
  | [], acc, _ => [acc.reverse]
  | c :: rest, acc, inRun =>
    if isDelim c then
      if inRun then splitAux rest [] true
      else acc.reverse :: splitAux rest [] true
    else splitAux rest (c :: acc) false

def splitSentences (text : List Char) : List (List Char) :=
  splitAux text [] false

/-- The `current_pos` walk: spans `(sent_start, sent_end, sent)` of the
non-blank sentence pieces, in order. -/
def sentSpansAux (text : List Char) : List (List Char) → Nat → List (Nat × Nat × List Char)
  | [], _ => []
  | sent :: rest, pos =>
    if (stripStr sent).isEmpty then sentSpansAux text rest pos
    else
      match indexOfFrom text sent pos with
      | none => sentSpansAux text rest pos
      | some s => (s, s + sent.length, sent) :: sentSpansAux text rest (s + sent.length)

def sentSpans (text : List Char) : List (Nat × Nat × List Char) :=
  sentSpansAux text (splitSentences text) 0

/-- `for i, e1 in enumerate(l): for e2 in l[i+1:]`. -/
def pairsOf : List α → List (α × α)
  | [] => []
  | x :: xs => xs.map (fun y => (x, y)) ++ pairsOf xs

def allowPair (t1 t2 : String) : Bool :=
  (t1 == "drug" && t2 == "disease") || (t1 == "disease" && t2 == "drug") ||
  (t1 == "gene" && t2 == "disease") || (t1 == "disease" && t2 == "gene")

def emitPair (sent : List Char) (cid : String) (p : ExtractedEntity × ExtractedEntity) :
    Option Relationship :=
  if allowPair p.1.entity_type p.2.entity_type then
    some { subject_id := p.1.canonical_id
           predicate := "ASSOCIATED_WITH"
           object_id := p.2.canonical_id
           evidence_text := stripStr sent
           chunk_id := cid
           confidence := 1/2
           extraction_method := "cooccurrence" }
  else none

def inSentence (s e : Nat) (x : ExtractedEntity) : Bool :=
  decide ((s : Int) ≤ x.start_char) && decide (x.start_char < (e : Int))

def extractRelationships (entities : List ExtractedEntity) (text : List Char)
    (cid : String) : List Relationship :=
  (sentSpans text).flatMap (fun sp =>
    (pairsOf (entities.filter (inSentence sp.1 sp.2.1))).filterMap
      (emitPair sp.2.2 cid))

end RelationshipExtractor

/-! ### Multi-hop query engine
(`src/src/ingestion/triple_hop_query.py`, `src/src/ingestion/multihop_query.py`)

A Retrieval Oracle result is the list of ranked chunks, each carrying its
entity mentions as `(text, type)` pairs (`paper['source']['entities']`). -/

abbrev OracleMention := String × String

abbrev OracleChunk := List OracleMention

/-- The mention texts of one type, in scan order over the ranked chunks. -/
def mentionsOfType (ty : String) (chunks : List OracleChunk) : List String :=
  (chunks.flatMap id).filterMap (fun m => if m.2 == ty then some m.1 else none)

/-- `collections.Counter` built by `counter[x] += 1` over a stream: an
insertion-ordered key/count list (keys appear in first-seen order). -/
def tallyStep (acc : List (String × Nat)) (s : String) : List (String × Nat) :=
  if acc.any (fun p => p.1 == s) then
    acc.map (fun p => if p.1 == s then (p.1, p.2 + 1) else p)
  else acc ++ [(s, 1)]

def tally (l : List String) : List (String × Nat) := l.foldl tallyStep []

/-- Stable insertion step for sorting by count descending: walk past strictly
greater counts, insert before the first entry of equal or smaller count. -/
def insertDesc (x : String × Nat) : List (String × Nat) → List (String × Nat)
  | [] => [x]
  | y :: ys => if x.2 < y.2 then y :: insertDesc x ys else x :: y :: ys

/-- Stable sort by count descending. -/
def sortDesc : List (String × Nat) → List (String × Nat)
  | [] => []
  | x :: xs => insertDesc x (sortDesc xs)

/-- `Counter.most_common(n)`: count-descending order, equal counts in
first-encountered order. -/
def mostCommon (c : List (String × Nat)) (n : Nat) : List (String × Nat) :=
  (sortDesc c).take n

/-- Step 2 of `TripleHopQuery.disease_to_genes_to_drugs`: count the gene
mentions across the disease's ranked chunks and keep the top `top_genes`. -/
def geneCounts (chunks : List OracleChunk) : List (String × Nat) :=
  tally (mentionsOfType "gene" chunks)

def geneNeighbors (chunks : List OracleChunk) (k : Nat) : List (String × Nat) :=
  mostCommon (geneCounts chunks) k

/-- `get_genes_for_disease` inside `TripleHopQuery.shared_genetic_mechanism`
tallies gene mentions the same way; `shared` is the key-set intersection
`set(genes1.keys()) & set(genes2.keys())`. -/
def counterKeys (c : List (String × Nat)) : List String := c.map (·.1)

def sharedGenes (chunks1 chunks2 : List OracleChunk) : List String :=
  (counterKeys (geneCounts chunks1)).filter
    (fun g => g ∈ counterKeys (geneCounts chunks2))

/-- The per-chunk `diseases_in_chunk` set of
`DiseaseDrugMultiHop.find_related_diseases`: disease mentions other than the
seed (compared lowercased), deduplicated, in insertion order. -/
def chunkDiseaseSet (seed : String) (chunk : OracleChunk) : List String :=
  (chunk.filterMap (fun m =>
      if m.2 == "disease" && toLowerStr m.1.toList ≠ toLowerStr seed.toList
      then some m.1 else none)).foldl
    (fun acc t => if t ∈ acc then acc else acc ++ [t]) []

/-- `DiseaseDrugMultiHop.find_related_diseases`: per chunk the disease set is
iterated (`for disease in diseases_in_chunk`) to bump the counter; Python set
iteration order is hash-dependent, so it is a parameter `enum` here — a valid
run instantiates `enum` with any function that enumerates each set (i.e.
permutes the deduplicated list).  The top `top_k` by `most_common` follow. -/
def findRelatedDiseases (seed : String) (chunks : List OracleChunk) (topK : Nat)
    (enum : List String → List String) : List (String × Nat) :=
  mostCommon (tally (chunks.flatMap (fun c => enum (chunkDiseaseSet seed c)))) topK

/-! ### `EntityCollection.load` (`src/src/schema/entity.py`)

`load` reads JSONL lines; `json.loads` and pydantic `model_validate` are
external and modelled by a `parse` parameter returning the record's type tag
and entity, or an error for a malformed line.  The source has no `try` around
the loop: an error on any line propagates and aborts the whole load. -/

def insertByType (c : EntityCollectionS) (ty : String) (e : MedEntity) :
    EntityCollectionS :=
  -- dict assignment `collection.<bucket>[entity.entity_id] = entity`
  let upsert := fun (l : List MedEntity) =>
    if l.any (fun x => x.entity_id == e.entity_id)
    then l.map (fun x => if x.entity_id == e.entity_id then e else x)
    else l ++ [e]
  if ty == "disease" then { c with diseases := upsert c.diseases }
  else if ty == "gene" then { c with genes := upsert c.genes }
  else if ty == "drug" then { c with drugs := upsert c.drugs }
  else if ty == "protein" then { c with proteins := upsert c.proteins }
  else if ty == "symptom" then { c with symptoms := upsert c.symptoms }
  else if ty == "procedure" then { c with procedures := upsert c.procedures }
  else if ty == "biomarker" then { c with biomarkers := upsert c.biomarkers }
  else if ty == "pathway" then { c with pathways := upsert c.pathways }
  else c

def loadAux (parse : String → Except String (String × MedEntity)) :
    List String → EntityCollectionS → Except String EntityCollectionS
  | [], acc => .ok acc
  | line :: rest, acc =>
    match parse line with
    | .error e => .error e
    | .ok (ty, ent) => loadAux parse rest (insertByType acc ty ent)

/-- `EntityCollection.load`. -/
def loadCollection (parse : String → Except String (String × MedEntity))
    (lines : List String) : Except String EntityCollectionS :=
  loadAux parse lines {}

/-! ### `HybridExtractor` (`src/src/ingestion/hybrid_extractor.py`)

BioBERT initialization and inference are external capabilities: `init` takes
whether BioBERT loads, a call takes the BioBERT result for that call
(`none` = the call raised).  Log output is modelled as a list of events. -/

namespace HybridExtractor

inductive LogEvent where
  | startInfo
  | loadedInfo
  | initFallbackWarn
  | callFallbackWarn
deriving DecidableEq, Repr

structure HState where
  useBiobert : Bool
deriving DecidableEq, Repr

/-- `HybridExtractor.__init__`: `use_biobert` is set once; failure to load
BioBERT logs a single warning here and is never re-logged per call. -/
def init (biobertLoads : Bool) : HState × List LogEvent :=
  if biobertLoads then (⟨true⟩, [.startInfo, .loadedInfo])
  else (⟨false⟩, [.startInfo, .initFallbackWarn])

def isGene (e : ExtractedEntity) : Bool := e.entity_type == "gene"

def isDiseaseOrDrug (e : ExtractedEntity) : Bool :=
  e.entity_type == "disease" || e.entity_type == "drug"

/-- `HybridExtractor.extract_entities` for one call: diseases/drugs from the
FlashText pass; genes from BioBERT when it is available and the call
succeeds, otherwise the (gene-typed part of the) FlashText results, with a
warning logged for a per-call failure. -/
def extractOne (st : HState) (idx : EntityExtractor.Index) (text : List Char)
    (cid : String) (biobertOut : Option (List ExtractedEntity)) :
    List ExtractedEntity × List LogEvent :=
  let ftResults := FlashTextExtractor.extractEntities idx text cid
  let dd := ftResults.filter isDiseaseOrDrug
  if st.useBiobert then
    match biobertOut with
    | some br => (dd ++ br.filter isGene, [])
    | none => (dd ++ ftResults.filter isGene, [.callFallbackWarn])
  else (dd ++ ftResults.filter isGene, [])

/-- One call's inputs: text, chunk id, and the BioBERT outcome for the call. -/
structure CallIn where
  text : List Char
  cid : String
  biobertOut : Option (List ExtractedEntity)

/-- A session: initialization followed by a sequence of calls; collects every
result and the concatenated log. -/
def runCalls (st : HState) (idx : EntityExtractor.Index) :
    List CallIn → List (List ExtractedEntity) × List LogEvent
  | [] => ([], [])
  | c :: rest =>
    let r := extractOne st idx c.text c.cid c.biobertOut
    let rec' := runCalls st idx rest
    (r.1 :: rec'.1, r.2 ++ rec'.2)

def session (biobertLoads : Bool) (idx : EntityExtractor.Index)
    (calls : List CallIn) : List (List ExtractedEntity) × List LogEvent :=
  let s := init biobertLoads
  let r := runCalls s.1 idx calls
  (r.1, s.2 ++ r.2)

end HybridExtractor

/-! ### Concrete instances used by the scenario checks and counterexamples -/

/-- Scenario 1 catalog: disease "Type 2 Diabetes Mellitus", synonym
"Type II Diabetes", abbreviation "T2DM". -/
def t2dmCatalog : EntityCollectionS :=
  { diseases := [{ entity_id := "D1", name := "Type 2 Diabetes Mellitus".toList,
                   synonyms := ["Type II Diabetes".toList],
                   abbreviations := ["T2DM".toList] }] }

def t2dmText : List Char := "Patients with T2DM often develop complications.".toList

/-- A catalog whose disease name "flu" occurs inside the word "influenza". -/
def fluCatalog : EntityCollectionS :=
  { diseases := [{ entity_id := "D2", name := "flu".toList, synonyms := [],
                   abbreviations := [] }] }

/-- A catalog containing the real human gene named "HR". -/
def hrCatalog : EntityCollectionS :=
  { genes := [{ entity_id := "HGNC:5172", name := "HR".toList, synonyms := [],
                abbreviations := [] }] }

/-- A drug mention entirely inside the first sentence of `"AB. CD"`. -/
def relEnt1 : ExtractedEntity :=
  { mention_text := "AB".toList, canonical_id := "dr1", entity_type := "drug",
    start_char := 0, end_char := 2, chunk_id := "c", confidence := 1,
    extraction_method := "flashtext" }

/-- A disease mention starting inside the first sentence of `"AB. CD"` but
ending past the sentence boundary (span `[1, 5)` vs sentence `[0, 2)`). -/
def relEnt2 : ExtractedEntity :=
  { mention_text := "B. C".toList, canonical_id := "di1", entity_type := "disease",
    start_char := 1, end_char := 5, chunk_id := "c", confidence := 1,
    extraction_method := "flashtext" }

/-- A catalog drug named "FooBar", reachable by BioBERT linking from the
concatenation of the subword tokens "Foo" and "Bar". -/
def fooCatalog : EntityCollectionS :=
  { drugs := [{ entity_id := "DR9", name := "FooBar".toList, synonyms := [],
                abbreviations := [] }] }

/-- Model output: two consecutive chemical-labelled tokens drawn from the two
words of the text "Foo Bar"; their concatenation "FooBar" is not a substring
of the text. -/
def fooToks : List BioBERT.Tok :=
  [⟨"Foo".toList, 1, 2⟩, ⟨"Bar".toList, 1, 3⟩]

/-- Scenario 3 oracle stub: three ranked chunks whose gene mentions are
BRCA1, BRCA1, TP53. -/
def scenarioChunks : List OracleChunk :=
  [[("BRCA1", "gene")], [("BRCA1", "gene")], [("TP53", "gene")]]

/-- One chunk mentioning diseases B then A (scan order); both occur once, so
their ranking is a pure tie-break. -/
def tieChunks : List OracleChunk := [[("B", "disease"), ("A", "disease")]]

/-- A parse stub: the line "good" is a well-formed disease record, anything
else is malformed. -/
def parseStrict : String → Except String (String × MedEntity) :=
  fun s =>
    if s == "good" then
      .ok ("disease", { entity_id := "D1", name := "flu".toList, synonyms := [],
                        abbreviations := [] })
    else .error "malformed record"

/-! ### Counterexamples -/

/-- C1 counterexample.  In `find_related_diseases` the counter is fed from the
per-chunk Python *set* `diseases_in_chunk`, whose iteration order is
hash-dependent, not scan order.  With one chunk mentioning B then A (so
first-seen order in the scan is B, A) and a legal set enumeration that yields
A before B, the tied result comes out `[("A",1),("B",1)]` — the tie is broken
by set iteration order, not by first-seen order in the scan of the ranked
chunks. -/
theorem C1_counterexample :
    chunkDiseaseSet "seed" [("B", "disease"), ("A", "disease")] = ["B", "A"] ∧
    (List.reverse (chunkDiseaseSet "seed" [("B", "disease"), ("A", "disease")])).Perm
      (chunkDiseaseSet "seed" [("B", "disease"), ("A", "disease")]) ∧
    findRelatedDiseases "seed" tieChunks 10 List.reverse = [("A", 1), ("B", 1)] ∧
    findRelatedDiseases "seed" tieChunks 10 List.reverse ≠ [("B", 1), ("A", 1)] := by
  refine ⟨by decide, by decide, by decide, by decide⟩

/-- C2 counterexample.  `extract_relationships` of the text "AB. CD" with a
drug mention `[0,2)` and a disease mention `[1,5)` emits a relationship even
though the disease mention's span crosses the boundary of the first sentence
`[0,2)`: the code only tests `sent_start <= e.start_char < sent_end`, never
`end_char`. -/
theorem C2_counterexample :
    (RelationshipExtractor.extractRelationships [relEnt1, relEnt2]
        "AB. CD".toList "c").length = 1 ∧
    RelationshipExtractor.sentSpans "AB. CD".toList =
      [(0, 2, "AB".toList), (3, 6, " CD".toList)] ∧
    (∀ sp ∈ RelationshipExtractor.sentSpans "AB. CD".toList,
      ¬((sp.1 : Int) ≤ relEnt2.start_char ∧ relEnt2.end_char ≤ (sp.2.1 : Int))) := by
  refine ⟨by decide, by decide, by decide⟩

/-- C3 counterexample.  The catalog disease name "flu" appears verbatim in
the text "influenza" (at span `[2,5)`), yet the lexical extractor returns no
mention at all: FlashText only matches keywords delimited by word
boundaries. -/
theorem C3_counterexample :
    sliceStr "influenza".toList 2 5 = "flu".toList ∧
    EntityExtractor.extractEntities (EntityExtractor.buildLookupIndex fluCatalog)
      "influenza".toList "c" = [] := by
  refine ⟨by decide, by decide⟩

/-- C4 counterexample.  When BioBERT initializes but then errors on each of
two calls, the fallback warning is logged on *every* failing call (twice
here), not exactly once across repeated calls. -/
theorem C4_counterexample :
    ((HybridExtractor.session true (FlashTextExtractor.buildLookupIndex {})
        [⟨"x".toList, "c1", none⟩, ⟨"x".toList, "c2", none⟩]).2.count
      HybridExtractor.LogEvent.callFallbackWarn) = 2 ∧ (2 : Nat) ≠ 1 := by
  refine ⟨by decide, by decide⟩

/-- C5 counterexample.  With model output tokens "Foo", "Bar" (both labelled
chemical) over the text "Foo Bar" and a catalog drug named "FooBar",
`BioBERTEntityExtractor.extract_entities` links the concatenated mention
"FooBar", and `text.find("FooBar")` returns `-1`: the emitted entity has
`start_char = -1 < 0`, violating the claimed invariant. -/
theorem C5_counterexample :
    (BioBERT.extractEntities fooCatalog fooToks "Foo Bar".toList "c").map
      (fun e => (e.start_char, e.end_char)) = [(-1, 5)] ∧
    ¬(0 ≤ (-1 : Int)) := by
  refine ⟨by decide, by decide⟩

/-- C6 counterexample.  The stop-list in `extractor.py` does not contain
"HR" (or "CI"), so a catalog gene named "HR" is registered in the
case-sensitive gene processor and the uppercase text occurrence "HR" is
returned as a gene mention. -/
theorem C6_counterexample :
    ("HR".toList ∉ EntityExtractor.GENE_STOPWORDS) ∧
    (EntityExtractor.extractEntities (EntityExtractor.buildLookupIndex hrCatalog)
        "The HR was measured.".toList "c").map
      (fun m => (m.mention_text, m.entity_type)) = [("HR".toList, "gene")] := by
  refine ⟨by decide, by decide⟩

/-- C8 counterexample.  Two runs of `find_related_diseases` on the same fixed
oracle results, differing only in the (hash-dependent) iteration order of the
per-chunk disease set, return differently ordered neighbor lists. -/
theorem C8_counterexample :
    findRelatedDiseases "seed" tieChunks 10 id = [("B", 1), ("A", 1)] ∧
    findRelatedDiseases "seed" tieChunks 10 List.reverse = [("A", 1), ("B", 1)] ∧
    (List.reverse (chunkDiseaseSet "seed" [("B", "disease"), ("A", "disease")])).Perm
      (chunkDiseaseSet "seed" [("B", "disease"), ("A", "disease")]) ∧
    findRelatedDiseases "seed" tieChunks 10 id ≠
      findRelatedDiseases "seed" tieChunks 10 List.reverse := by
  refine ⟨by decide, by decide, by decide, by decide⟩

/-- C9 counterexample.  A file with one malformed line followed by one
well-formed record: `EntityCollection.load` has no per-record error handling,
so the whole load aborts with the parse error and the well-formed record is
not loaded. -/
theorem C9_counterexample :
    loadCollection parseStrict ["bad", "good"] = .error "malformed record" ∧
    (parseStrict "good").isOk = true := by
  exact ⟨rfl, rfl⟩

/-! ### General lemmas about the FlashText scan -/

theorem candOk_parts {text kw : List Char} {i : Nat} (h : candOk text i kw = true) :
    kw ≠ [] ∧ matchesAt text kw i = true ∧ endOk text (i + kw.length) = true := by
  have h' : ((!kw.isEmpty) = true ∧ matchesAt text kw i = true) ∧
      endOk text (i + kw.length) = true := by
    simpa [candOk, Bool.and_eq_true] using h
  exact ⟨by simpa [List.isEmpty_iff] using h'.1.1, h'.1.2, h'.2⟩

theorem matchesAt_bound {text kw : List Char} {i : Nat} (hne : kw ≠ [])
    (h : matchesAt text kw i = true) : i + kw.length ≤ text.length := by
  have h' : (text.drop i).take kw.length = kw := by
    simpa [matchesAt] using h
  have hlen := congrArg List.length h'
  rw [List.length_take, List.length_drop] at hlen
  have hkw : 0 < kw.length := List.length_pos.mpr hne
  omega

theorem matchesAt_slice {text kw : List Char} {i : Nat}
    (h : matchesAt text kw i = true) : sliceStr text i (i + kw.length) = kw := by
  have h' : (text.drop i).take kw.length = kw := by
    simpa [matchesAt] using h
  simpa [sliceStr] using h'

theorem candOk_bound {text kw : List Char} {i : Nat} (h : candOk text i kw = true) :
    i + kw.length ≤ text.length :=
  matchesAt_bound (candOk_parts h).1 (candOk_parts h).2.1

theorem pickLonger_cases (text : List Char) (i : Nat)
    (acc : Option (List Char × KwVal)) (e : List Char × KwVal) :
    pickLonger text i acc e = acc ∨
      (pickLonger text i acc e = some e ∧ candOk text i e.1 = true) := by
  unfold pickLonger
  by_cases h : (candOk text i e.1 && decide (accLen acc ≤ e.1.length)) = true
  · rw [if_pos h]
    rw [Bool.and_eq_true] at h
    exact Or.inr ⟨rfl, h.1⟩
  · rw [if_neg h]; exact Or.inl rfl

theorem pickLonger_accLen (text : List Char) (i : Nat)
    (acc : Option (List Char × KwVal)) (e : List Char × KwVal) :
    accLen acc ≤ accLen (pickLonger text i acc e) := by
  unfold pickLonger
  by_cases h : (candOk text i e.1 && decide (accLen acc ≤ e.1.length)) = true
  · rw [if_pos h]
    rw [Bool.and_eq_true] at h
    simpa [accLen] using of_decide_eq_true h.2
  · rw [if_neg h]

theorem pickLonger_cand_le (text : List Char) (i : Nat)
    (acc : Option (List Char × KwVal)) (e : List Char × KwVal)
    (hc : candOk text i e.1 = true) :
    e.1.length ≤ accLen (pickLonger text i acc e) := by
  unfold pickLonger
  by_cases h : accLen acc ≤ e.1.length
  · rw [if_pos (by simp [hc, h])]
    simp [accLen]
  · rw [if_neg (by simp [hc, h])]
    omega

theorem foldl_pickLonger_sound (text : List Char) (i : Nat) :
    ∀ (l : Processor) (acc : Option (List Char × KwVal)) (e : List Char × KwVal),
      l.foldl (pickLonger text i) acc = some e →
      acc = some e ∨ (e ∈ l ∧ candOk text i e.1 = true) := by
  intro l
  induction l with
  | nil => intro acc e h; exact Or.inl h
  | cons p rest ih =>
    intro acc e h
    simp only [List.foldl_cons] at h
    rcases ih (pickLonger text i acc p) e h with h1 | h2
    · rcases pickLonger_cases text i acc p with hk | ⟨hrepl, hcand⟩
      · left; rw [← hk]; exact h1
      · have hpe : p = e := Option.some_inj.mp (hrepl ▸ h1)
        subst hpe
        exact Or.inr ⟨List.mem_cons_self p rest, hcand⟩
    · exact Or.inr ⟨List.mem_cons_of_mem _ h2.1, h2.2⟩

theorem foldl_pickLonger_accLen (text : List Char) (i : Nat) :
    ∀ (l : Processor) (acc : Option (List Char × KwVal)),
      accLen acc ≤ accLen (l.foldl (pickLonger text i) acc) := by
  intro l
  induction l with
  | nil => intro acc; simp
  | cons p rest ih =>
    intro acc
    calc accLen acc ≤ accLen (pickLonger text i acc p) := pickLonger_accLen _ _ _ _
      _ ≤ _ := ih _

theorem foldl_pickLonger_maximal (text : List Char) (i : Nat) :
    ∀ (l : Processor) (acc : Option (List Char × KwVal)) (kw : List Char) (v : KwVal),
      (kw, v) ∈ l → candOk text i kw = true →
      kw.length ≤ accLen (l.foldl (pickLonger text i) acc) := by
  intro l
  induction l with
  | nil => intro acc kw v h; exact absurd h (List.not_mem_nil _)
  | cons p rest ih =>
    intro acc kw v hm hc
    rcases List.mem_cons.mp hm with he | ht
    · have hp1 : p.1 = kw := by rw [← he]
      have h1 : p.1.length ≤ accLen (pickLonger text i acc p) :=
        pickLonger_cand_le text i acc p (by rw [hp1]; exact hc)
      have h2 : accLen (pickLonger text i acc p) ≤
          accLen (rest.foldl (pickLonger text i) (pickLonger text i acc p)) :=
        foldl_pickLonger_accLen text i rest _
      simp only [List.foldl_cons]
      rw [hp1] at h1
      omega
    · simpa using ih (pickLonger text i acc p) kw v ht hc

theorem bestMatchAt_sound {kws : Processor} {text : List Char} {i : Nat}
    {e : List Char × KwVal} (h : bestMatchAt kws text i = some e) :
    e ∈ kws ∧ candOk text i e.1 = true := by
  rcases foldl_pickLonger_sound text i kws none e h with h1 | h2
  · exact absurd h1 (by simp)
  · exact h2

theorem bestMatchAt_maximal {kws : Processor} {text : List Char} {i : Nat}
    {kw : List Char} {v : KwVal} (hm : (kw, v) ∈ kws) (hc : candOk text i kw = true) :
    ∃ e, bestMatchAt kws text i = some e ∧ kw.length ≤ e.1.length := by
  have hlen := foldl_pickLonger_maximal text i kws none kw v hm hc
  have hkw : 0 < kw.length := List.length_pos.mpr (candOk_parts hc).1
  match hb : bestMatchAt kws text i with
  | none =>
    exfalso
    rw [bestMatchAt] at hb
    rw [hb] at hlen
    have : kw.length = 0 := by simpa [accLen] using hlen
    omega
  | some e =>
    refine ⟨e, rfl, ?_⟩
    rw [bestMatchAt] at hb
    rw [hb] at hlen
    simpa [accLen] using hlen

theorem scanAux_sound (kws : Processor) (text : List Char) :
    ∀ (fuel i : Nat) (h : KwVal × Nat × Nat), h ∈ scanAux kws text fuel i →
      ∃ kw, (kw, h.1) ∈ kws ∧ candOk text h.2.1 kw = true ∧
        startOk text h.2.1 = true ∧ h.2.2 = h.2.1 + kw.length ∧ i ≤ h.2.1 := by
  intro fuel
  induction fuel with
  | zero => intro i h hm; simp [scanAux] at hm
  | succ n ih =>
    intro i h hm
    simp only [scanAux] at hm
    by_cases hlt : i < text.length
    · rw [if_pos hlt] at hm
      by_cases hso : startOk text i = true
      · rw [if_pos hso] at hm
        rcases hb : bestMatchAt kws text i with _ | ⟨kw0, v0⟩
        · rw [hb] at hm
          obtain ⟨kw', h1, h2, h3, h4, h5⟩ := ih (i + 1) h hm
          exact ⟨kw', h1, h2, h3, h4, by omega⟩
        · rw [hb] at hm
          rcases List.mem_cons.mp hm with he | ht
          · subst he
            have hs := bestMatchAt_sound hb
            exact ⟨kw0, by simpa using hs.1, by simpa using hs.2, hso, by simp,
              le_refl _⟩
          · obtain ⟨kw', h1, h2, h3, h4, h5⟩ := ih (i + kw0.length) h ht
            exact ⟨kw', h1, h2, h3, h4, by omega⟩
      · rw [if_neg hso] at hm
        obtain ⟨kw', h1, h2, h3, h4, h5⟩ := ih (i + 1) h hm
        exact ⟨kw', h1, h2, h3, h4, by omega⟩
    · rw [if_neg hlt] at hm
      exact absurd hm (List.not_mem_nil _)

theorem scanAux_covers (kws : Processor) (text : List Char) {kw : List Char}
    {v : KwVal} (hm : (kw, v) ∈ kws) :
    ∀ (fuel i s : Nat), text.length + 1 - i ≤ fuel → i ≤ s →
      candOk text s kw = true → startOk text s = true →
      ∃ h ∈ scanAux kws text fuel i, h.2.1 ≤ s ∧ s < h.2.2 ∧
        (h.2.1 = s → s + kw.length ≤ h.2.2) := by
  intro fuel
  induction fuel with
  | zero =>
    intro i s hfuel his hc hso
    exfalso
    have hb := candOk_bound hc
    have hk : 0 < kw.length := List.length_pos.mpr (candOk_parts hc).1
    omega
  | succ n ih =>
    intro i s hfuel his hc hso
    have hk : 0 < kw.length := List.length_pos.mpr (candOk_parts hc).1
    have hsl : s < text.length := by
      have hb := candOk_bound hc
      omega
    have hil : i < text.length := by omega
    simp only [scanAux]
    rw [if_pos hil]
    rcases Nat.eq_or_lt_of_le his with heq | hlt
    · subst heq
      rw [if_pos hso]
      obtain ⟨e, hbe, hle⟩ := bestMatchAt_maximal hm hc
      rw [hbe]
      refine ⟨(e.2, i, i + e.1.length), List.mem_cons_self _ _, ?_, ?_, ?_⟩
      · show i ≤ i; exact le_refl i
      · show i < i + e.1.length; omega
      · intro _; show i + kw.length ≤ i + e.1.length; omega
    · by_cases hso2 : startOk text i = true
      · rw [if_pos hso2]
        rcases hb : bestMatchAt kws text i with _ | ⟨kw0, v0⟩
        · obtain ⟨h, hmem, hp1, hp2, hp3⟩ := ih (i + 1) s (by omega) (by omega) hc hso
          exact ⟨h, hmem, hp1, hp2, hp3⟩
        · have hk0 : 0 < kw0.length := by
            have hs := bestMatchAt_sound hb
            exact List.length_pos.mpr (candOk_parts (by simpa using hs.2)).1
          by_cases hcov : s < i + kw0.length
          · refine ⟨(v0, i, i + kw0.length), List.mem_cons_self _ _, ?_, ?_, ?_⟩
            · show i ≤ s; omega
            · show s < i + kw0.length; exact hcov
            · intro habs
              have : i = s := habs
              omega
          · obtain ⟨h, hmem, hp1, hp2, hp3⟩ :=
              ih (i + kw0.length) s (by omega) (by omega) hc hso
            exact ⟨h, List.mem_cons_of_mem _ hmem, hp1, hp2, hp3⟩
      · rw [if_neg hso2]
        obtain ⟨h, hmem, hp1, hp2, hp3⟩ := ih (i + 1) s (by omega) (by omega) hc hso
        exact ⟨h, hmem, hp1, hp2, hp3⟩

/-- The scan of an empty processor reports nothing (`bestMatchAt` of `[]` is
`none`). -/
theorem scanAux_nil (text : List Char) :
    ∀ (fuel i : Nat), scanAux [] text fuel i = [] := by
  intro fuel
  induction fuel with
  | zero => intro i; simp [scanAux]
  | succ n ih =>
    intro i
    simp only [scanAux]
    by_cases hlt : i < text.length
    · rw [if_pos hlt]
      by_cases hso : startOk text i = true
      · rw [if_pos hso]
        have : bestMatchAt ([] : Processor) text i = none := rfl
        rw [this]
        exact ih (i + 1)
      · rw [if_neg hso]; exact ih (i + 1)
    · rw [if_neg hlt]

/-! ### Lemmas about the lookup-index builders -/

theorem mem_addKeyword {p : Processor} {kw : List Char} {v : KwVal}
    {x : List Char × KwVal} (h : x ∈ addKeyword p kw v) :
    x ∈ p ∨ (x = (kw, v) ∧ kw ≠ []) := by
  unfold addKeyword at h
  by_cases hkw : kw.isEmpty = true
  · rw [if_pos hkw] at h; exact Or.inl h
  · rw [if_neg hkw] at h
    rcases List.mem_append.mp h with h1 | h2
    · exact Or.inl h1
    · right
      exact ⟨List.mem_singleton.mp h2, by simpa [List.isEmpty_iff] using hkw⟩

theorem addKeyword_mem_mono {p : Processor} {kw : List Char} {v : KwVal}
    {x : List Char × KwVal} (h : x ∈ p) : x ∈ addKeyword p kw v := by
  unfold addKeyword
  by_cases hkw : kw.isEmpty = true
  · rw [if_pos hkw]; exact h
  · rw [if_neg hkw]; exact List.mem_append_left _ h

theorem addKeyword_mem_self {p : Processor} {kw : List Char} {v : KwVal}
    (h : kw ≠ []) : (kw, v) ∈ addKeyword p kw v := by
  unfold addKeyword
  rw [if_neg (by simpa [List.isEmpty_iff] using h)]
  exact List.mem_append_right _ (List.mem_singleton.mpr rfl)

/-- Sound characterization of a fold whose step either keeps the processor or
adds one keyword of a fixed shape. -/
theorem mem_procFold {step : Processor → List Char → Processor}
    {tr : List Char → List Char} {val : KwVal}
    (hstep : ∀ p v, step p v = p ∨ step p v = addKeyword p (tr v) val) :
    ∀ (vs : List (List Char)) (p : Processor) (x : List Char × KwVal),
      x ∈ vs.foldl step p → x ∈ p ∨ ∃ v, x = (tr v, val) ∧ tr v ≠ [] := by
  intro vs
  induction vs with
  | nil => intro p x h; exact Or.inl h
  | cons v rest ih =>
    intro p x h
    simp only [List.foldl_cons] at h
    rcases ih (step p v) x h with h1 | h2
    · rcases hstep p v with hs | hs
      · rw [hs] at h1; exact Or.inl h1
      · rw [hs] at h1
        rcases mem_addKeyword h1 with h3 | h3
        · exact Or.inl h3
        · exact Or.inr ⟨v, h3⟩
    · exact Or.inr h2

theorem mem_procFold_mono {step : Processor → List Char → Processor}
    {tr : List Char → List Char} {val : KwVal}
    (hstep : ∀ p v, step p v = p ∨ step p v = addKeyword p (tr v) val) :
    ∀ (vs : List (List Char)) (p : Processor) (x : List Char × KwVal),
      x ∈ p → x ∈ vs.foldl step p := by
  intro vs
  induction vs with
  | nil => intro p x h; exact h
  | cons v rest ih =>
    intro p x h
    simp only [List.foldl_cons]
    refine ih _ x ?_
    rcases hstep p v with hs | hs
    · rw [hs]; exact h
    · rw [hs]; exact addKeyword_mem_mono h

theorem mem_procFold_intro {step : Processor → List Char → Processor}
    {tr : List Char → List Char} {val : KwVal}
    (hstep : ∀ p v, step p v = p ∨ step p v = addKeyword p (tr v) val)
    {v : List Char} (hv : ∀ p, step p v = addKeyword p (tr v) val)
    (hne : tr v ≠ []) :
    ∀ (vs : List (List Char)) (p : Processor), v ∈ vs →
      (tr v, val) ∈ vs.foldl step p := by
  intro vs
  induction vs with
  | nil => intro p h; exact absurd h (List.not_mem_nil _)
  | cons w rest ih =>
    intro p h
    simp only [List.foldl_cons]
    rcases List.mem_cons.mp h with he | ht
    · subst he
      exact mem_procFold_mono hstep rest _ _ (by rw [hv p]; exact addKeyword_mem_self hne)
    · exact ih _ ht

/-- A fold invariant carrier: `P` preserved by every step drawn from the
folded list. -/
theorem foldl_pres_mem {α β : Type _} (P : α → Prop) (step : α → β → α) :
    ∀ (l : List β) (acc : α), P acc →
      (∀ b ∈ l, ∀ acc', P acc' → P (step acc' b)) → P (l.foldl step acc) := by
  intro l
  induction l with
  | nil => intro acc h _; exact h
  | cons b rest ih =>
    intro acc h hstep
    simp only [List.foldl_cons]
    exact ih _ (hstep b (List.mem_cons_self _ _) acc h)
      (fun b' hb' => hstep b' (List.mem_cons_of_mem _ hb'))

/-- Variant of `mem_procFold` recording a predicate `R` guaranteed by the
step's guard for every added keyword. -/
theorem mem_procFoldR {step : Processor → List Char → Processor}
    (tr : List Char → List Char) (val : KwVal) (R : List Char → Prop)
    (hstep : ∀ p v, step p v = p ∨ (step p v = addKeyword p (tr v) val ∧ R (tr v))) :
    ∀ (vs : List (List Char)) (p : Processor) (x : List Char × KwVal),
      x ∈ vs.foldl step p →
      x ∈ p ∨ ∃ v, x = (tr v, val) ∧ tr v ≠ [] ∧ R (tr v) := by
  intro vs
  induction vs with
  | nil => intro p x h; exact Or.inl h
  | cons v rest ih =>
    intro p x h
    simp only [List.foldl_cons] at h
    rcases ih (step p v) x h with h1 | h2
    · rcases hstep p v with hs | ⟨hs, hr⟩
      · rw [hs] at h1; exact Or.inl h1
      · rw [hs] at h1
        rcases mem_addKeyword h1 with h3 | h3
        · exact Or.inl h3
        · exact Or.inr ⟨v, h3.1, h3.2, hr⟩
    · exact Or.inr h2

/-- Introduce and preserve an element-wise property through a fold. -/
theorem foldl_intro_mem {α β : Type _} (P : α → Prop) (step : α → β → α)
    (hmono : ∀ acc b, P acc → P (step acc b)) (b0 : β)
    (hb : ∀ acc, P (step acc b0)) :
    ∀ (l : List β) (acc : α), b0 ∈ l → P (l.foldl step acc) := by
  intro l
  induction l with
  | nil => intro acc h; exact absurd h (List.not_mem_nil _)
  | cons b rest ih =>
    intro acc h
    simp only [List.foldl_cons]
    rcases List.mem_cons.mp h with he | ht
    · subst he
      exact foldl_pres_mem P step rest _ (hb acc) (fun b' _ acc' h' => hmono acc' b' h')
    · exact ih _ ht

namespace EntityExtractor

/-- New case-insensitive keywords added for one entity: nonempty lowered
variants tagged with `(entity_id, ty)` for a non-gene `ty`. -/
theorem mem_addEntityKeywords_kp {ty : String} {st : Index} {e : MedEntity}
    {x : List Char × KwVal}
    (h : x ∈ (addEntityKeywords ty st e).keywordProcessor) :
    x ∈ st.keywordProcessor ∨
      (x.1 ≠ [] ∧ x.2 = (e.entity_id, ty) ∧ ty ≠ "gene") := by
  unfold addEntityKeywords at h
  by_cases hty : (ty == "gene") = true
  · rw [if_pos hty] at h
    exact Or.inl h
  · rw [if_neg hty] at h
    have hty' : ty ≠ "gene" := by simpa using hty
    have hstep : ∀ (p : Processor) (v : List Char),
        (if 2 < v.length then addKeyword p (toLowerStr v) (e.entity_id, ty) else p) = p ∨
        (if 2 < v.length then addKeyword p (toLowerStr v) (e.entity_id, ty) else p) =
          addKeyword p (toLowerStr v) (e.entity_id, ty) := by
      intro p v
      by_cases hv : 2 < v.length
      · rw [if_pos hv]; exact Or.inr rfl
      · rw [if_neg hv]; exact Or.inl rfl
    rcases mem_procFold hstep (e.synonyms ++ e.abbreviations) _ x h with h1 | h2
    · rcases mem_addKeyword h1 with h3 | h3
      · exact Or.inl h3
      · exact Or.inr ⟨by rw [h3.1]; exact h3.2, by rw [h3.1], hty'⟩
    · obtain ⟨v, hv1, hv2⟩ := h2
      exact Or.inr ⟨by rw [hv1]; exact hv2, by rw [hv1], hty'⟩

/-- New case-sensitive gene keywords added for one entity: nonempty,
stop-list-filtered surface forms tagged `(entity_id, "gene")`. -/
theorem mem_addEntityKeywords_gp {ty : String} {st : Index} {e : MedEntity}
    {x : List Char × KwVal}
    (h : x ∈ (addEntityKeywords ty st e).geneProcessor) :
    x ∈ st.geneProcessor ∨
      (x.1 ≠ [] ∧ x.2 = (e.entity_id, ty) ∧ ty = "gene" ∧ x.1 ∉ GENE_STOPWORDS) := by
  unfold addEntityKeywords at h
  by_cases hty : (ty == "gene") = true
  · rw [if_pos hty] at h
    have hty' : ty = "gene" := by simpa using hty
    have hstep : ∀ (p : Processor) (v : List Char),
        (if isUpperStr v && decide (3 ≤ v.length) && decide (v ∉ GENE_STOPWORDS)
          then addKeyword p v (e.entity_id, ty) else p) = p ∨
        ((if isUpperStr v && decide (3 ≤ v.length) && decide (v ∉ GENE_STOPWORDS)
          then addKeyword p v (e.entity_id, ty) else p) =
            addKeyword p (id v) (e.entity_id, ty) ∧ (id v) ∉ GENE_STOPWORDS) := by
      intro p v
      by_cases hv : (isUpperStr v && decide (3 ≤ v.length) && decide (v ∉ GENE_STOPWORDS)) = true
      · rw [if_pos hv]
        rw [Bool.and_eq_true, Bool.and_eq_true] at hv
        exact Or.inr ⟨rfl, of_decide_eq_true hv.2⟩
      · rw [if_neg hv]; exact Or.inl rfl
    rcases mem_procFoldR id (e.entity_id, ty) (fun w => w ∉ GENE_STOPWORDS) hstep
        (e.synonyms ++ e.abbreviations) _ x h with h1 | h2
    · by_cases hn : (isUpperStr e.name && decide (e.name ∉ GENE_STOPWORDS) &&
          decide (2 ≤ e.name.length)) = true
      · rw [if_pos hn] at h1
        rcases mem_addKeyword h1 with h3 | h3
        · exact Or.inl h3
        · rw [Bool.and_eq_true, Bool.and_eq_true] at hn
          refine Or.inr ⟨by rw [h3.1]; exact h3.2, by rw [h3.1], hty', ?_⟩
          rw [h3.1]
          exact of_decide_eq_true hn.1.2
      · rw [if_neg hn] at h1
        exact Or.inl h1
    · obtain ⟨v, hv1, hv2, hv3⟩ := h2
      exact Or.inr ⟨by rw [hv1]; exact hv2, by rw [hv1], hty', by rw [hv1]; exact hv3⟩
  · rw [if_neg hty] at h
    exact Or.inl h

theorem addEntityKeywords_kp_mono {ty : String} {st : Index} {e : MedEntity}
    {x : List Char × KwVal} (h : x ∈ st.keywordProcessor) :
    x ∈ (addEntityKeywords ty st e).keywordProcessor := by
  unfold addEntityKeywords
  by_cases hty : (ty == "gene") = true
  · rw [if_pos hty]; exact h
  · rw [if_neg hty]
    have hstep : ∀ (p : Processor) (v : List Char),
        (if 2 < v.length then addKeyword p (toLowerStr v) (e.entity_id, ty) else p) = p ∨
        (if 2 < v.length then addKeyword p (toLowerStr v) (e.entity_id, ty) else p) =
          addKeyword p (toLowerStr v) (e.entity_id, ty) := by
      intro p v
      by_cases hv : 2 < v.length
      · rw [if_pos hv]; exact Or.inr rfl
      · rw [if_neg hv]; exact Or.inl rfl
    exact mem_procFold_mono hstep _ _ x (addKeyword_mem_mono h)

/-- The catalog name of a non-gene entity is always registered (when
nonempty). -/
theorem addEntityKeywords_kp_name {ty : String} {st : Index} {e : MedEntity}
    (hty : (ty == "gene") = false) (hne : toLowerStr e.name ≠ []) :
    (toLowerStr e.name, (e.entity_id, ty)) ∈
      (addEntityKeywords ty st e).keywordProcessor := by
  unfold addEntityKeywords
  rw [if_neg (by simp [hty])]
  have hstep : ∀ (p : Processor) (v : List Char),
      (if 2 < v.length then addKeyword p (toLowerStr v) (e.entity_id, ty) else p) = p ∨
      (if 2 < v.length then addKeyword p (toLowerStr v) (e.entity_id, ty) else p) =
        addKeyword p (toLowerStr v) (e.entity_id, ty) := by
    intro p v
    by_cases hv : 2 < v.length
    · rw [if_pos hv]; exact Or.inr rfl
    · rw [if_neg hv]; exact Or.inl rfl
  exact mem_procFold_mono hstep _ _ _ (addKeyword_mem_self hne)

/-- A synonym/abbreviation longer than two characters of a non-gene entity is
always registered. -/
theorem addEntityKeywords_kp_variant {ty : String} {st : Index} {e : MedEntity}
    {v : List Char} (hty : (ty == "gene") = false)
    (hv : v ∈ e.synonyms ++ e.abbreviations) (hlen : 2 < v.length) :
    (toLowerStr v, (e.entity_id, ty)) ∈
      (addEntityKeywords ty st e).keywordProcessor := by
  unfold addEntityKeywords
  rw [if_neg (by simp [hty])]
  have hstep : ∀ (p : Processor) (w : List Char),
      (if 2 < w.length then addKeyword p (toLowerStr w) (e.entity_id, ty) else p) = p ∨
      (if 2 < w.length then addKeyword p (toLowerStr w) (e.entity_id, ty) else p) =
        addKeyword p (toLowerStr w) (e.entity_id, ty) := by
    intro p w
    by_cases hw : 2 < w.length
    · rw [if_pos hw]; exact Or.inr rfl
    · rw [if_neg hw]; exact Or.inl rfl
  refine mem_procFold_intro hstep (v := v) ?_ ?_ _ _ hv
  · intro p; rw [if_pos hlen]
  · have : (toLowerStr v).length = v.length := List.length_map _ _
    intro habs
    rw [habs] at this
    simp at this
    omega

end EntityExtractor

/-- Every keyword of the case-insensitive processor built by
`EntityExtractor._build_lookup_index` is nonempty and tagged with a non-gene
type. -/
theorem EE_build_kp_inv (cat : EntityCollectionS) :
    ∀ x ∈ (EntityExtractor.buildLookupIndex cat).keywordProcessor,
      x.1 ≠ [] ∧ x.2.2 ≠ "gene" := by
  unfold EntityExtractor.buildLookupIndex
  refine foldl_pres_mem
    (fun st => ∀ x ∈ st.keywordProcessor, x.1 ≠ [] ∧ x.2.2 ≠ "gene")
    EntityExtractor.addTypeKeywords _ {}
    (fun x hx => absurd hx (List.not_mem_nil _)) ?_
  intro b _ st hst
  unfold EntityExtractor.addTypeKeywords
  refine foldl_pres_mem
    (fun st => ∀ x ∈ st.keywordProcessor, x.1 ≠ [] ∧ x.2.2 ≠ "gene")
    (EntityExtractor.addEntityKeywords b.1) _ _ hst ?_
  intro e _ st' hst' x hx
  rcases EntityExtractor.mem_addEntityKeywords_kp hx with h1 | ⟨hne, hval, hty⟩
  · exact hst' x h1
  · refine ⟨hne, ?_⟩
    rw [hval]
    exact hty

/-- Every keyword of the case-sensitive gene processor built by
`EntityExtractor._build_lookup_index` is nonempty, tagged "gene", and not a
stop-word. -/
theorem EE_build_gp_inv (cat : EntityCollectionS) :
    ∀ x ∈ (EntityExtractor.buildLookupIndex cat).geneProcessor,
      x.1 ≠ [] ∧ x.2.2 = "gene" ∧ x.1 ∉ EntityExtractor.GENE_STOPWORDS := by
  unfold EntityExtractor.buildLookupIndex
  refine foldl_pres_mem
    (fun st => ∀ x ∈ st.geneProcessor,
      x.1 ≠ [] ∧ x.2.2 = "gene" ∧ x.1 ∉ EntityExtractor.GENE_STOPWORDS)
    EntityExtractor.addTypeKeywords _ {}
    (fun x hx => absurd hx (List.not_mem_nil _)) ?_
  intro b _ st hst
  unfold EntityExtractor.addTypeKeywords
  refine foldl_pres_mem
    (fun st => ∀ x ∈ st.geneProcessor,
      x.1 ≠ [] ∧ x.2.2 = "gene" ∧ x.1 ∉ EntityExtractor.GENE_STOPWORDS)
    (EntityExtractor.addEntityKeywords b.1) _ _ hst ?_
  intro e _ st' hst' x hx
  rcases EntityExtractor.mem_addEntityKeywords_gp hx with h1 | ⟨hne, hval, hty, hstop⟩
  · exact hst' x h1
  · refine ⟨hne, ?_, hstop⟩
    rw [hval]
    exact hty

/-- Build-level registration: a non-gene catalog surface form reaches the
case-insensitive processor through the whole `_build_lookup_index` fold. -/
theorem EE_build_reg_helper (cat : EntityCollectionS) (ty : String)
    (coll : List MedEntity) (e : MedEntity) (w : List Char)
    (hb0 : (ty, coll) ∈ [("disease", cat.diseases), ("gene", cat.genes),
      ("drug", cat.drugs), ("protein", cat.proteins)])
    (he : e ∈ coll)
    (hreg : ∀ st, (toLowerStr w, (e.entity_id, ty)) ∈
      (EntityExtractor.addEntityKeywords ty st e).keywordProcessor) :
    (toLowerStr w, (e.entity_id, ty)) ∈
      (EntityExtractor.buildLookupIndex cat).keywordProcessor := by
  unfold EntityExtractor.buildLookupIndex
  refine foldl_intro_mem
    (fun st => (toLowerStr w, (e.entity_id, ty)) ∈ st.keywordProcessor)
    EntityExtractor.addTypeKeywords ?_ (ty, coll) ?_ _ {} hb0
  · intro st b hst
    unfold EntityExtractor.addTypeKeywords
    refine foldl_pres_mem
      (fun st => (toLowerStr w, (e.entity_id, ty)) ∈ st.keywordProcessor)
      (EntityExtractor.addEntityKeywords b.1) _ _ hst ?_
    intro e' _ st' hst'
    exact EntityExtractor.addEntityKeywords_kp_mono hst'
  · intro st
    unfold EntityExtractor.addTypeKeywords
    refine foldl_intro_mem
      (fun st => (toLowerStr w, (e.entity_id, ty)) ∈ st.keywordProcessor)
      (EntityExtractor.addEntityKeywords ty) ?_ e hreg _ _ he
    intro st' e' hst'
    exact EntityExtractor.addEntityKeywords_kp_mono hst'

/-- A disease or drug entry's name, or any of its synonyms/abbreviations
longer than two characters, is registered (lowercased) in the built
case-insensitive processor. -/
theorem EE_build_registered (cat : EntityCollectionS) (e : MedEntity)
    (w : List Char) (he : e ∈ cat.diseases ∨ e ∈ cat.drugs)
    (hw : (w = e.name ∧ w ≠ []) ∨
      ((w ∈ e.synonyms ∨ w ∈ e.abbreviations) ∧ 2 < w.length)) :
    ∃ val, (toLowerStr w, val) ∈
      (EntityExtractor.buildLookupIndex cat).keywordProcessor := by
  have hne : toLowerStr w ≠ [] := by
    intro habs
    have hw0 : w = [] := by simpa [toLowerStr] using congrArg List.length habs
    rcases hw with ⟨_, hne2⟩ | ⟨_, hlen⟩
    · exact hne2 hw0
    · rw [hw0] at hlen
      simp at hlen
  have hregFor : ∀ ty, (ty == "gene") = false → ∀ st,
      (toLowerStr w, (e.entity_id, ty)) ∈
        (EntityExtractor.addEntityKeywords ty st e).keywordProcessor := by
    intro ty hty st
    rcases hw with ⟨heq, _⟩ | ⟨hmem, hlen⟩
    · rw [heq]
      exact EntityExtractor.addEntityKeywords_kp_name hty (by rw [← heq]; exact hne)
    · exact EntityExtractor.addEntityKeywords_kp_variant hty
        (List.mem_append.mpr (hmem.imp id id)) hlen
  rcases he with hd | hd
  · exact ⟨(e.entity_id, "disease"),
      EE_build_reg_helper cat "disease" cat.diseases e w (by simp) hd
        (hregFor "disease" (by decide))⟩
  · exact ⟨(e.entity_id, "drug"),
      EE_build_reg_helper cat "drug" cat.drugs e w (by simp) hd
        (hregFor "drug" (by decide))⟩

/-- `FlashTextExtractor._build_lookup_index` never touches the gene
processor. -/
theorem FT_addEntity_gp_eq (ty : String) (st : EntityExtractor.Index)
    (e : MedEntity) :
    (FlashTextExtractor.addEntityKeywords ty st e).geneProcessor =
      st.geneProcessor := by
  unfold FlashTextExtractor.addEntityKeywords
  by_cases hty : (ty == "gene") = true
  · rw [if_pos hty]
  · rw [if_neg hty]

theorem FT_mem_addEntityKeywords_kp {ty : String} {st : EntityExtractor.Index}
    {e : MedEntity} {x : List Char × KwVal}
    (h : x ∈ (FlashTextExtractor.addEntityKeywords ty st e).keywordProcessor) :
    x ∈ st.keywordProcessor ∨
      (x.1 ≠ [] ∧ x.2 = (e.entity_id, ty) ∧ ty ≠ "gene") := by
  unfold FlashTextExtractor.addEntityKeywords at h
  by_cases hty : (ty == "gene") = true
  · rw [if_pos hty] at h
    exact Or.inl h
  · rw [if_neg hty] at h
    have hty' : ty ≠ "gene" := by simpa using hty
    have hstep : ∀ (p : Processor) (v : List Char),
        (if 2 < v.length then addKeyword p (toLowerStr v) (e.entity_id, ty) else p) = p ∨
        (if 2 < v.length then addKeyword p (toLowerStr v) (e.entity_id, ty) else p) =
          addKeyword p (toLowerStr v) (e.entity_id, ty) := by
      intro p v
      by_cases hv : 2 < v.length
      · rw [if_pos hv]; exact Or.inr rfl
      · rw [if_neg hv]; exact Or.inl rfl
    rcases mem_procFold hstep (e.synonyms ++ e.abbreviations) _ x h with h1 | h2
    · rcases mem_addKeyword h1 with h3 | h3
      · exact Or.inl h3
      · exact Or.inr ⟨by rw [h3.1]; exact h3.2, by rw [h3.1], hty'⟩
    · obtain ⟨v, hv1, hv2⟩ := h2
      exact Or.inr ⟨by rw [hv1]; exact hv2, by rw [hv1], hty'⟩

/-- The hybrid module's FlashText gene processor is empty for every catalog
(`if entity_type == "gene": pass`). -/
theorem FT_build_gp_nil (cat : EntityCollectionS) :
    (FlashTextExtractor.buildLookupIndex cat).geneProcessor = [] := by
  unfold FlashTextExtractor.buildLookupIndex
  refine foldl_pres_mem (fun st => st.geneProcessor = [])
    FlashTextExtractor.addTypeKeywords _ {} rfl ?_
  intro b _ st hst
  unfold FlashTextExtractor.addTypeKeywords
  refine foldl_pres_mem (fun st => st.geneProcessor = [])
    (FlashTextExtractor.addEntityKeywords b.1) _ _ hst ?_
  intro e _ st' hst'
  rw [FT_addEntity_gp_eq]
  exact hst'

/-- Every keyword registered by the hybrid FlashText builder carries a
disease, drug, or protein type. -/
theorem FT_build_kp_types (cat : EntityCollectionS) :
    ∀ x ∈ (FlashTextExtractor.buildLookupIndex cat).keywordProcessor,
      x.2.2 = "disease" ∨ x.2.2 = "drug" ∨ x.2.2 = "protein" := by
  unfold FlashTextExtractor.buildLookupIndex
  refine foldl_pres_mem
    (fun st => ∀ x ∈ st.keywordProcessor,
      x.2.2 = "disease" ∨ x.2.2 = "drug" ∨ x.2.2 = "protein")
    FlashTextExtractor.addTypeKeywords _ {}
    (fun x hx => absurd hx (List.not_mem_nil _)) ?_
  intro b hb st hst
  unfold FlashTextExtractor.addTypeKeywords
  refine foldl_pres_mem
    (fun st => ∀ x ∈ st.keywordProcessor,
      x.2.2 = "disease" ∨ x.2.2 = "drug" ∨ x.2.2 = "protein")
    (FlashTextExtractor.addEntityKeywords b.1) _ _ hst ?_
  intro e _ st' hst' x hx
  rcases FT_mem_addEntityKeywords_kp hx with h1 | ⟨_, hval, hty⟩
  · exact hst' x h1
  · have hx2 : x.2.2 = b.1 := by rw [hval]
    simp only [List.mem_cons, List.not_mem_nil, or_false] at hb
    rcases hb with h | h | h | h
    · subst h; exact Or.inl hx2
    · subst h; exact absurd rfl hty
    · subst h; exact Or.inr (Or.inl hx2)
    · subst h; exact Or.inr (Or.inr hx2)

/-- The two extractors share the same extraction routine (only the builders
differ). -/
theorem FT_extract_eq :
    FlashTextExtractor.extractEntities = EntityExtractor.extractEntities := rfl

/-- Decomposition of the lexical extractor's output. -/
theorem EE_extract_mem {idx : EntityExtractor.Index} {text : List Char}
    {cid : String} {m : ExtractedEntity}
    (h : m ∈ EntityExtractor.extractEntities idx text cid) :
    (∃ hit ∈ extractKeywordsCI idx.keywordProcessor text,
      m = EntityExtractor.ciEntity text cid hit) ∨
    (∃ hit ∈ extractKeywordsCS idx.geneProcessor text,
      m = EntityExtractor.csEntity text cid hit) := by
  unfold EntityExtractor.extractEntities at h
  rcases List.mem_append.mp h with h1 | h2
  · obtain ⟨hit, hh, he⟩ := List.mem_map.mp h1
    exact Or.inl ⟨hit, hh, he.symm⟩
  · obtain ⟨hit, hh, he⟩ := List.mem_map.mp h2
    exact Or.inr ⟨hit, hh, he.symm⟩

/-! ### Claim theorems for the extractors -/

/-- C5 (amended).  Every mention produced by the lexical extractor
(`EntityExtractor.extract_entities`) satisfies
`0 ≤ start_char < end_char ≤ len(chunk_text)`.  The claim's universal form
over *any* extractor fails on the BioBERT path, which computes offsets with
`text.find` and can emit `start_char = -1` (see `C5_counterexample`). -/
theorem C5_theorem :
    ∀ (cat : EntityCollectionS) (text : List Char) (cid : String)
      (m : ExtractedEntity),
      m ∈ EntityExtractor.extractEntities (EntityExtractor.buildLookupIndex cat)
        text cid →
      0 ≤ m.start_char ∧ m.start_char < m.end_char ∧
        m.end_char ≤ (text.length : Int) := by
  intro cat text cid m hm
  rcases EE_extract_mem hm with ⟨hit, hh, he⟩ | ⟨hit, hh, he⟩
  · obtain ⟨kw, _, hcand, _, hend, _⟩ := scanAux_sound
      (EntityExtractor.buildLookupIndex cat).keywordProcessor (toLowerStr text)
      ((toLowerStr text).length + 1) 0 hit hh
    have hkpos : 0 < kw.length := List.length_pos.mpr (candOk_parts hcand).1
    have hbound := candOk_bound hcand
    have hlen : (toLowerStr text).length = text.length := by simp [toLowerStr]
    subst he
    simp only [EntityExtractor.ciEntity]
    refine ⟨?_, ?_, ?_⟩ <;> omega
  · obtain ⟨kw, _, hcand, _, hend, _⟩ := scanAux_sound
      (EntityExtractor.buildLookupIndex cat).geneProcessor text
      (text.length + 1) 0 hit hh
    have hkpos : 0 < kw.length := List.length_pos.mpr (candOk_parts hcand).1
    have hbound := candOk_bound hcand
    subst he
    simp only [EntityExtractor.csEntity]
    refine ⟨?_, ?_, ?_⟩ <;> omega

/-- C5 witness: the scenario-1 mention satisfies the invariant. -/
theorem C5_witness :
    ∃ m ∈ EntityExtractor.extractEntities
        (EntityExtractor.buildLookupIndex t2dmCatalog) t2dmText "chunk_1",
      0 ≤ m.start_char ∧ m.start_char < m.end_char ∧
        m.end_char ≤ (t2dmText.length : Int) :=
  ⟨⟨"T2DM".toList, "D1", "disease", 14, 18, "chunk_1", 1, "flashtext"⟩,
    by decide, C5_theorem t2dmCatalog t2dmText "chunk_1" _ (by decide)⟩

/-- C6 (amended).  No word of the stop-list actually present in
`extractor.py` (which contains "OR" and "AND" but, contrary to the claim,
not "HR" or "CI") is ever registered in the case-sensitive gene processor,
so no gene mention the lexical extractor returns has a stop-listed surface
form; see `C6_counterexample` for the "HR" gap. -/
theorem C6_theorem :
    ∀ (cat : EntityCollectionS) (text : List Char) (cid : String)
      (m : ExtractedEntity),
      m ∈ EntityExtractor.extractEntities (EntityExtractor.buildLookupIndex cat)
        text cid →
      m.entity_type = "gene" →
      m.mention_text ∉ EntityExtractor.GENE_STOPWORDS := by
  intro cat text cid m hm hg
  rcases EE_extract_mem hm with ⟨hit, hh, he⟩ | ⟨hit, hh, he⟩
  · obtain ⟨kw, hkkw, _, _, _, _⟩ := scanAux_sound
      (EntityExtractor.buildLookupIndex cat).keywordProcessor (toLowerStr text)
      ((toLowerStr text).length + 1) 0 hit hh
    have hne : hit.1.2 ≠ "gene" := (EE_build_kp_inv cat (kw, hit.1) hkkw).2
    subst he
    exact absurd hg hne
  · obtain ⟨kw, hkkw, hcand, _, hend, _⟩ := scanAux_sound
      (EntityExtractor.buildLookupIndex cat).geneProcessor text
      (text.length + 1) 0 hit hh
    have hinv := EE_build_gp_inv cat (kw, hit.1) hkkw
    subst he
    have hslice : sliceStr text hit.2.1 hit.2.2 = kw := by
      rw [hend]
      exact matchesAt_slice (candOk_parts hcand).2.1
    have : (EntityExtractor.csEntity text cid hit).mention_text = kw := hslice
    rw [this]
    exact hinv.2.2

/-- C6 witness: the "HR" gene mention's surface form is (consistently) not on
the in-code stop-list. -/
theorem C6_witness : "HR".toList ∉ EntityExtractor.GENE_STOPWORDS :=
  C6_theorem hrCatalog "The HR was measured.".toList "c"
    ⟨"HR".toList, "HGNC:5172", "gene", 4, 6, "c", 1, "flashtext_case_sensitive"⟩
    (by decide) (by decide)

/-- C10.  The hybrid module's `FlashTextExtractor` never populates its
case-sensitive gene processor, so its output never contains a gene mention
and consists solely of disease, drug and protein mentions. -/
theorem C10_theorem :
    ∀ (cat : EntityCollectionS) (text : List Char) (cid : String),
      (FlashTextExtractor.buildLookupIndex cat).geneProcessor = [] ∧
      ∀ m ∈ FlashTextExtractor.extractEntities
          (FlashTextExtractor.buildLookupIndex cat) text cid,
        m.entity_type ≠ "gene" ∧
        (m.entity_type = "disease" ∨ m.entity_type = "drug" ∨
          m.entity_type = "protein") := by
  intro cat text cid
  refine ⟨FT_build_gp_nil cat, ?_⟩
  intro m hm
  rw [FT_extract_eq] at hm
  rcases EE_extract_mem hm with ⟨hit, hh, he⟩ | ⟨hit, hh, he⟩
  · obtain ⟨kw, hkkw, _, _, _, _⟩ := scanAux_sound
      (FlashTextExtractor.buildLookupIndex cat).keywordProcessor (toLowerStr text)
      ((toLowerStr text).length + 1) 0 hit hh
    have htyX : hit.1.2 = "disease" ∨ hit.1.2 = "drug" ∨ hit.1.2 = "protein" :=
      FT_build_kp_types cat (kw, hit.1) hkkw
    subst he
    refine ⟨?_, htyX⟩
    intro habs
    have hg : hit.1.2 = "gene" := habs
    rcases htyX with h | h | h <;> (rw [h] at hg; exact absurd hg (by decide))
  · rw [FT_build_gp_nil cat] at hh
    rw [show extractKeywordsCS [] text = scanAux [] text (text.length + 1) 0
      from rfl, scanAux_nil] at hh
    exact absurd hh (List.not_mem_nil _)

/-- C10 witness: a concrete run over the scenario-1 catalog. -/
theorem C10_witness :
    (FlashTextExtractor.buildLookupIndex t2dmCatalog).geneProcessor = [] ∧
    (⟨"T2DM".toList, "D1", "disease", 14, 18, "chunk_1", 1, "flashtext"⟩ :
      ExtractedEntity).entity_type ≠ "gene" :=
  ⟨(C10_theorem t2dmCatalog t2dmText "chunk_1").1,
    ((C10_theorem t2dmCatalog t2dmText "chunk_1").2 _ (by decide)).1⟩

/-- C3 (amended).  For a disease/drug catalog entry, any *registered* surface
variant (the name, or a synonym/abbreviation longer than two characters)
that occurs in the text case-insensitively as a whole word (word boundaries
on both sides), and whose occurrence is not overlapped by any other
registered whole-word keyword occurrence, yields a mention with exactly that
span, `mention_text = text[start:end]`, and confidence 1.0.  The original
claim's unconditional "appears verbatim" fails at occurrences inside larger
words (see `C3_counterexample`).  The scenario-1 conjunct: the T2DM text
yields exactly the one disease mention at span `[14,18)`. -/
theorem C3_theorem :
    (∀ (cat : EntityCollectionS) (e : MedEntity) (w : List Char)
      (text : List Char) (cid : String) (s : Nat),
      e ∈ cat.diseases ∨ e ∈ cat.drugs →
      ((w = e.name ∧ w ≠ []) ∨
        ((w ∈ e.synonyms ∨ w ∈ e.abbreviations) ∧ 2 < w.length)) →
      matchesAt (toLowerStr text) (toLowerStr w) s = true →
      startOk (toLowerStr text) s = true →
      endOk (toLowerStr text) (s + w.length) = true →
      (∀ a < s + w.length,
        ∀ p ∈ (EntityExtractor.buildLookupIndex cat).keywordProcessor,
        candOk (toLowerStr text) a p.1 = true →
        startOk (toLowerStr text) a = true →
        s < a + p.1.length → a = s ∧ p.1.length = w.length) →
      ∃ m ∈ EntityExtractor.extractEntities
          (EntityExtractor.buildLookupIndex cat) text cid,
        m.start_char = (s : Int) ∧ m.end_char = ((s + w.length : Nat) : Int) ∧
        m.mention_text = sliceStr text s (s + w.length) ∧
        m.confidence = 1 ∧ m.extraction_method = "flashtext") ∧
    EntityExtractor.extractEntities (EntityExtractor.buildLookupIndex t2dmCatalog)
      t2dmText "chunk_1" =
      [⟨"T2DM".toList, "D1", "disease", 14, 18, "chunk_1", 1, "flashtext"⟩] := by
  constructor
  · intro cat e w text cid s he hw hocc hso hend hno
    have hwpos : 0 < w.length := by
      rcases hw with ⟨_, hne2⟩ | ⟨_, hlen⟩
      · exact List.length_pos.mpr hne2
      · omega
    have hlw : (toLowerStr w).length = w.length := by simp [toLowerStr]
    have hlwne : toLowerStr w ≠ [] := by
      intro habs
      have h0 : (toLowerStr w).length = 0 := by rw [habs]; rfl
      rw [hlw] at h0
      omega
    obtain ⟨val, hreg⟩ := EE_build_registered cat e w he hw
    have hcand : candOk (toLowerStr text) s (toLowerStr w) = true := by
      simp only [candOk, Bool.and_eq_true]
      refine ⟨⟨?_, hocc⟩, ?_⟩
      · simp [List.isEmpty_iff, hlwne]
      · rw [hlw]; exact hend
    obtain ⟨h, hmem, ha1, ha2, ha3⟩ := scanAux_covers
      (EntityExtractor.buildLookupIndex cat).keywordProcessor (toLowerStr text)
      hreg ((toLowerStr text).length + 1) 0 s (by omega) (Nat.zero_le s) hcand hso
    obtain ⟨kw', hkw', hcand', hso', hend', _⟩ := scanAux_sound
      (EntityExtractor.buildLookupIndex cat).keywordProcessor (toLowerStr text)
      ((toLowerStr text).length + 1) 0 h hmem
    have hkw'pos : 0 < kw'.length := List.length_pos.mpr (candOk_parts hcand').1
    obtain ⟨hstart, hlen'⟩ := hno h.2.1 (by omega) (kw', h.1) hkw' hcand' hso'
      (show s < h.2.1 + kw'.length by omega)
    have hend2 : h.2.2 = s + w.length := by rw [hend', hstart, hlen']
    refine ⟨EntityExtractor.ciEntity text cid h, ?_, ?_, ?_, ?_, rfl, rfl⟩
    · unfold EntityExtractor.extractEntities
      exact List.mem_append_left _ (List.mem_map_of_mem _ hmem)
    · show (h.2.1 : Int) = (s : Int)
      rw [hstart]
    · show (h.2.2 : Int) = ((s + w.length : Nat) : Int)
      rw [hend2]
    · show sliceStr text h.2.1 h.2.2 = sliceStr text s (s + w.length)
      rw [hstart, hend2]
  · decide

/-- C3 witness: scenario 1 instantiates the amended completeness statement at
the abbreviation "T2DM", occurrence `[14,18)`. -/
theorem C3_witness :
    ∃ m ∈ EntityExtractor.extractEntities
        (EntityExtractor.buildLookupIndex t2dmCatalog) t2dmText "chunk_1",
      m.start_char = (14 : Int) ∧ m.end_char = ((14 + 4 : Nat) : Int) ∧
      m.mention_text = sliceStr t2dmText 14 (14 + 4) ∧
      m.confidence = 1 ∧ m.extraction_method = "flashtext" :=
  C3_theorem.1 t2dmCatalog
    ⟨"D1", "Type 2 Diabetes Mellitus".toList, ["Type II Diabetes".toList],
      ["T2DM".toList]⟩
    "T2DM".toList t2dmText "chunk_1" 14
    (Or.inl (by decide))
    (Or.inr ⟨Or.inr (by decide), by decide⟩)
    (by decide) (by decide) (by decide) (by decide)

/-! ### Claim theorems for the relationship deriver -/

theorem pairsOf_mem {α : Type _} {p : α × α} :
    ∀ {l : List α}, p ∈ RelationshipExtractor.pairsOf l → p.1 ∈ l ∧ p.2 ∈ l := by
  intro l
  induction l with
  | nil => intro h; simp [RelationshipExtractor.pairsOf] at h
  | cons x xs ih =>
    intro h
    simp only [RelationshipExtractor.pairsOf] at h
    rcases List.mem_append.mp h with h1 | h2
    · obtain ⟨y, hy, he⟩ := List.mem_map.mp h1
      have h1e : p.1 = x := by rw [← he]
      have h2e : p.2 = y := by rw [← he]
      rw [h1e, h2e]
      exact ⟨List.mem_cons_self _ _, List.mem_cons_of_mem _ hy⟩
    · have := ih h2
      exact ⟨List.mem_cons_of_mem _ this.1, List.mem_cons_of_mem _ this.2⟩

/-- C2 (amended).  Every relationship `extract_relationships` emits has
predicate `ASSOCIATED_WITH`, confidence 0.5 and method "cooccurrence", and
comes from a pair of mentions whose `start_char` offsets both lie within one
computed sentence span, with an allow-listed type pair (drug↔disease or
gene↔disease, either order).  The original claim's stronger condition — that
both *full spans* lie within the sentence — is false: only the start offset
is tested (see `C2_counterexample`). -/
theorem C2_theorem :
    ∀ (ents : List ExtractedEntity) (text : List Char) (cid : String)
      (r : Relationship),
      r ∈ RelationshipExtractor.extractRelationships ents text cid →
      r.predicate = "ASSOCIATED_WITH" ∧ r.confidence = 1/2 ∧
      r.extraction_method = "cooccurrence" ∧
      ∃ sp ∈ RelationshipExtractor.sentSpans text, ∃ a ∈ ents, ∃ b ∈ ents,
        RelationshipExtractor.inSentence sp.1 sp.2.1 a = true ∧
        RelationshipExtractor.inSentence sp.1 sp.2.1 b = true ∧
        RelationshipExtractor.allowPair a.entity_type b.entity_type = true ∧
        r.subject_id = a.canonical_id ∧ r.object_id = b.canonical_id := by
  intro ents text cid r hr
  unfold RelationshipExtractor.extractRelationships at hr
  obtain ⟨sp, hsp, hin⟩ := List.mem_flatMap.mp hr
  obtain ⟨pr, hpr, hemit⟩ := List.mem_filterMap.mp hin
  unfold RelationshipExtractor.emitPair at hemit
  by_cases hall :
      RelationshipExtractor.allowPair pr.1.entity_type pr.2.entity_type = true
  · rw [if_pos hall] at hemit
    have hre := (Option.some_inj.mp hemit).symm
    obtain ⟨ha, hb⟩ := pairsOf_mem hpr
    have ha' := List.mem_filter.mp ha
    have hb' := List.mem_filter.mp hb
    refine ⟨by rw [hre], by rw [hre], by rw [hre],
      sp, hsp, pr.1, ha'.1, pr.2, hb'.1, ha'.2, hb'.2, hall,
      by rw [hre], by rw [hre]⟩
  · rw [if_neg hall] at hemit
    simp at hemit

/-- C2 witness: a concrete emission with the guaranteed fields. -/
theorem C2_witness :
    ∃ r ∈ RelationshipExtractor.extractRelationships [relEnt1, relEnt2]
        "AB. CD".toList "c",
      r.predicate = "ASSOCIATED_WITH" ∧ r.confidence = 1/2 := by
  have hlist : RelationshipExtractor.extractRelationships [relEnt1, relEnt2]
      "AB. CD".toList "c" =
      [⟨"dr1", "ASSOCIATED_WITH", "di1", "AB".toList, "c", 1/2, "cooccurrence"⟩] :=
    rfl
  have hmem : (⟨"dr1", "ASSOCIATED_WITH", "di1", "AB".toList, "c", 1/2,
      "cooccurrence"⟩ : Relationship) ∈
      RelationshipExtractor.extractRelationships [relEnt1, relEnt2]
        "AB. CD".toList "c" := by
    rw [hlist]
    exact List.mem_cons_self _ _
  refine ⟨_, hmem, ?_, ?_⟩
  · exact (C2_theorem [relEnt1, relEnt2] "AB. CD".toList "c" _ hmem).1
  · exact (C2_theorem [relEnt1, relEnt2] "AB. CD".toList "c" _ hmem).2.1

/-! ### Claim theorems for the multi-hop query engine -/

theorem mem_insertDesc {x y : String × Nat} :
    ∀ {l : List (String × Nat)}, y ∈ insertDesc x l → y = x ∨ y ∈ l := by
  intro l
  induction l with
  | nil => intro h; simp [insertDesc] at h; exact Or.inl h
  | cons z zs ih =>
    intro h
    unfold insertDesc at h
    by_cases hxz : x.2 < z.2
    · rw [if_pos hxz] at h
      rcases List.mem_cons.mp h with h1 | h2
      · exact Or.inr (by rw [h1]; exact List.mem_cons_self _ _)
      · rcases ih h2 with h3 | h3
        · exact Or.inl h3
        · exact Or.inr (List.mem_cons_of_mem _ h3)
    · rw [if_neg hxz] at h
      rcases List.mem_cons.mp h with h1 | h2
      · exact Or.inl h1
      · exact Or.inr h2

theorem insertDesc_pairwise {x : String × Nat} :
    ∀ {l : List (String × Nat)},
      l.Pairwise (fun a b => b.2 ≤ a.2) →
      (insertDesc x l).Pairwise (fun a b => b.2 ≤ a.2) := by
  intro l
  induction l with
  | nil => intro _; simp [insertDesc]
  | cons z zs ih =>
    intro h
    rw [List.pairwise_cons] at h
    unfold insertDesc
    by_cases hxz : x.2 < z.2
    · rw [if_pos hxz]
      rw [List.pairwise_cons]
      refine ⟨?_, ih h.2⟩
      intro y hy
      rcases mem_insertDesc hy with h1 | h1
      · rw [h1]; omega
      · exact h.1 y h1
    · rw [if_neg hxz]
      rw [List.pairwise_cons]
      refine ⟨?_, List.pairwise_cons.mpr h⟩
      intro y hy
      rcases List.mem_cons.mp hy with h1 | h1
      · rw [h1]; omega
      · have := h.1 y h1
        omega

theorem sortDesc_pairwise :
    ∀ (l : List (String × Nat)),
      (sortDesc l).Pairwise (fun a b => b.2 ≤ a.2) := by
  intro l
  induction l with
  | nil => simp [sortDesc]
  | cons x xs ih => exact insertDesc_pairwise ih

theorem filter_insertDesc (x : String × Nat) (n : Nat) :
    ∀ (l : List (String × Nat)),
      (insertDesc x l).filter (fun p => p.2 == n) =
      if x.2 == n then x :: l.filter (fun p => p.2 == n)
      else l.filter (fun p => p.2 == n) := by
  intro l
  induction l with
  | nil =>
    by_cases hx : (x.2 == n) = true
    · rw [if_pos hx]
      simp [insertDesc, List.filter_cons, hx]
    · rw [if_neg hx]
      simp [insertDesc, List.filter_cons, hx]
  | cons z zs ih =>
    unfold insertDesc
    by_cases hxz : x.2 < z.2
    · rw [if_pos hxz]
      by_cases hx : (x.2 == n) = true
      · have hxn : x.2 = n := by simpa using hx
        have hzn : (z.2 == n) = false := by
          have : z.2 ≠ n := by omega
          simpa using this
        simp [List.filter_cons, hx, hzn, ih]
      · simp [List.filter_cons, hx, ih]
    · rw [if_neg hxz]
      by_cases hx : (x.2 == n) = true
      · simp [List.filter_cons, hx]
      · simp [List.filter_cons, hx]

theorem sortDesc_filter (n : Nat) :
    ∀ (l : List (String × Nat)),
      (sortDesc l).filter (fun p => p.2 == n) = l.filter (fun p => p.2 == n) := by
  intro l
  induction l with
  | nil => simp [sortDesc]
  | cons x xs ih =>
    show (insertDesc x (sortDesc xs)).filter _ = _
    rw [filter_insertDesc]
    by_cases hx : (x.2 == n) = true
    · simp [List.filter_cons, hx, ih]
    · simp [List.filter_cons, hx, ih]

/-- C1 (amended).  Gene-neighbor fetches that feed the counter directly in
scan order (`disease_to_genes_to_drugs` step 2) return a list sorted by
count descending whose equal-count entries keep their first-seen order (the
sort is stable over the insertion-ordered tally), and scenario 3 yields
`[("BRCA1",2),("TP53",1)]`.  The claim's universal form fails for
`find_related_diseases`, whose tie order follows per-chunk set iteration
order (see `C1_counterexample`). -/
theorem C1_theorem :
    (∀ (chunks : List OracleChunk) (k : Nat),
      (geneNeighbors chunks k).Pairwise (fun a b => b.2 ≤ a.2) ∧
      geneNeighbors chunks k = (sortDesc (geneCounts chunks)).take k ∧
      ∀ n : Nat, (sortDesc (geneCounts chunks)).filter (fun p => p.2 == n) =
        (geneCounts chunks).filter (fun p => p.2 == n)) ∧
    geneNeighbors scenarioChunks 5 = [("BRCA1", 2), ("TP53", 1)] := by
  constructor
  · intro chunks k
    refine ⟨?_, rfl, fun n => sortDesc_filter n _⟩
    exact (sortDesc_pairwise (geneCounts chunks)).sublist (List.take_sublist _ _)
  · decide

/-- C7.  The shared-gene query equals the key-set intersection of the two
independently fetched neighbor-count maps; hence it is a subset of both key
sets and symmetric as a set. -/
theorem C7_theorem :
    ∀ (chunks1 chunks2 : List OracleChunk) (g : String),
      (g ∈ sharedGenes chunks1 chunks2 ↔
        g ∈ counterKeys (geneCounts chunks1) ∧
        g ∈ counterKeys (geneCounts chunks2)) ∧
      (g ∈ sharedGenes chunks1 chunks2 ↔ g ∈ sharedGenes chunks2 chunks1) := by
  intro c1 c2 g
  have hmem : ∀ (a b : List OracleChunk),
      g ∈ sharedGenes a b ↔
        g ∈ counterKeys (geneCounts a) ∧ g ∈ counterKeys (geneCounts b) := by
    intro a b
    unfold sharedGenes
    rw [List.mem_filter]
    simp
  refine ⟨hmem c1 c2, ?_⟩
  rw [hmem c1 c2, hmem c2 c1]
  exact and_comm

/-- C7 witness: a concrete shared-gene membership. -/
theorem C7_witness :
    "BRCA1" ∈ sharedGenes scenarioChunks [[("BRCA1", "gene")]] :=
  (C7_theorem scenarioChunks [[("BRCA1", "gene")]] "BRCA1").1.mpr
    ⟨by decide, by decide⟩

/-- C8 (amended).  The direct-tally gene fetch is a pure function of the
sequence of typed mentions in the ranked results: identical oracle results
(indeed, identical gene-mention sequences) give identical neighbor lists.
The claim's blanket order-independence fails for `find_related_diseases`,
which depends on per-chunk set iteration order (see `C8_counterexample`). -/
theorem C8_theorem :
    ∀ (chunks1 chunks2 : List OracleChunk) (k : Nat),
      mentionsOfType "gene" chunks1 = mentionsOfType "gene" chunks2 →
      geneNeighbors chunks1 k = geneNeighbors chunks2 k := by
  intro c1 c2 k h
  unfold geneNeighbors mostCommon geneCounts
  rw [h]

/-- C8 witness: two syntactically different oracle results with the same gene
scan sequence rank identically. -/
theorem C8_witness :
    geneNeighbors scenarioChunks 5 =
      geneNeighbors [[("BRCA1", "gene"), ("BRCA1", "gene"), ("TP53", "gene"),
        ("aspirin", "drug")]] 5 :=
  C8_theorem scenarioChunks
    [[("BRCA1", "gene"), ("BRCA1", "gene"), ("TP53", "gene"),
      ("aspirin", "drug")]] 5 (by decide)

/-! ### Claim theorems for the catalog loader and the hybrid orchestrator -/

theorem loadAux_isOk (parse : String → Except String (String × MedEntity)) :
    ∀ (lines : List String) (acc : EntityCollectionS),
      (loadAux parse lines acc).isOk = true ↔
        ∀ l ∈ lines, (parse l).isOk = true := by
  intro lines
  induction lines with
  | nil => intro acc; simp [loadAux, Except.isOk, Except.toBool]
  | cons l rest ih =>
    intro acc
    unfold loadAux
    cases hp : parse l with
    | error e => simp [hp, Except.isOk, Except.toBool]
    | ok te =>
      simp only [hp]
      rw [ih]
      simp [hp, Except.isOk, Except.toBool]

/-- C9 (amended).  `EntityCollection.load` succeeds exactly when every line
parses: there is no per-record skip-and-warn, and a single malformed record
aborts the whole load (see `C9_counterexample`). -/
theorem C9_theorem :
    ∀ (parse : String → Except String (String × MedEntity)) (lines : List String),
      (loadCollection parse lines).isOk = true ↔
        ∀ l ∈ lines, (parse l).isOk = true :=
  fun parse lines => loadAux_isOk parse lines {}

/-- C9 witness: an all-well-formed file loads. -/
theorem C9_witness : (loadCollection parseStrict ["good"]).isOk = true :=
  (C9_theorem parseStrict ["good"]).mpr (by decide)

/-- Shared helper: a mention of the hybrid lexical extractor is never
gene-typed (used by the fallback analysis and by C10). -/
theorem FT_member_not_gene {cat : EntityCollectionS} {text : List Char}
    {cid : String} {m : ExtractedEntity}
    (hm : m ∈ FlashTextExtractor.extractEntities
      (FlashTextExtractor.buildLookupIndex cat) text cid) :
    m.entity_type ≠ "gene" ∧
      (m.entity_type = "disease" ∨ m.entity_type = "drug" ∨
        m.entity_type = "protein") := by
  rw [FT_extract_eq] at hm
  rcases EE_extract_mem hm with ⟨hit, hh, he⟩ | ⟨hit, hh, he⟩
  · obtain ⟨kw, hkkw, _, _, _, _⟩ := scanAux_sound
      (FlashTextExtractor.buildLookupIndex cat).keywordProcessor (toLowerStr text)
      ((toLowerStr text).length + 1) 0 hit hh
    have htyX : hit.1.2 = "disease" ∨ hit.1.2 = "drug" ∨ hit.1.2 = "protein" :=
      FT_build_kp_types cat (kw, hit.1) hkkw
    subst he
    refine ⟨?_, htyX⟩
    intro habs
    have hg : hit.1.2 = "gene" := habs
    rcases htyX with h | h | h <;> (rw [h] at hg; exact absurd hg (by decide))
  · rw [FT_build_gp_nil cat] at hh
    rw [show extractKeywordsCS [] text = scanAux [] text (text.length + 1) 0
      from rfl, scanAux_nil] at hh
    exact absurd hh (List.not_mem_nil _)

/-- The hybrid lexical extractor's gene-typed output is empty for every
catalog and text. -/
theorem FT_extract_no_genes (cat : EntityCollectionS) (text : List Char)
    (cid : String) :
    (FlashTextExtractor.extractEntities (FlashTextExtractor.buildLookupIndex cat)
      text cid).filter HybridExtractor.isGene = [] := by
  rw [List.filter_eq_nil_iff]
  intro m hm
  have := (FT_member_not_gene hm).1
  simp [HybridExtractor.isGene, this]

theorem dd_not_gene (e : ExtractedEntity)
    (h : HybridExtractor.isDiseaseOrDrug e = true) :
    HybridExtractor.isGene e = false := by
  unfold HybridExtractor.isDiseaseOrDrug at h
  rw [Bool.or_eq_true] at h
  unfold HybridExtractor.isGene
  rcases h with h | h
  · have : e.entity_type = "disease" := by simpa using h
    simp [this]
  · have : e.entity_type = "drug" := by simpa using h
    simp [this]

theorem runCalls_false_logs (idx : EntityExtractor.Index) :
    ∀ calls, (HybridExtractor.runCalls ⟨false⟩ idx calls).2 = [] := by
  intro calls
  induction calls with
  | nil => rfl
  | cons c rest ih =>
    show (HybridExtractor.extractOne ⟨false⟩ idx c.text c.cid c.biobertOut).2 ++
      (HybridExtractor.runCalls ⟨false⟩ idx rest).2 = []
    rw [ih]
    rfl

theorem runCalls_true_warns (idx : EntityExtractor.Index) :
    ∀ calls,
      ((HybridExtractor.runCalls ⟨true⟩ idx calls).2.count
        HybridExtractor.LogEvent.callFallbackWarn =
        calls.countP (fun c => c.biobertOut.isNone)) ∧
      ((HybridExtractor.runCalls ⟨true⟩ idx calls).2.count
        HybridExtractor.LogEvent.initFallbackWarn = 0) := by
  intro calls
  induction calls with
  | nil => exact ⟨rfl, rfl⟩
  | cons c rest ih =>
    cases hb : c.biobertOut with
    | none =>
      have hsplit : (HybridExtractor.runCalls ⟨true⟩ idx (c :: rest)).2 =
          [HybridExtractor.LogEvent.callFallbackWarn] ++
          (HybridExtractor.runCalls ⟨true⟩ idx rest).2 := by
        show (HybridExtractor.extractOne ⟨true⟩ idx c.text c.cid
          c.biobertOut).2 ++ _ = _
        rw [hb]
        rfl
      rw [hsplit, List.count_append, List.count_append, List.countP_cons]
      constructor
      · rw [ih.1]
        simp [hb]
        omega
      · rw [ih.2]
        rfl
    | some br =>
      have hsplit : (HybridExtractor.runCalls ⟨true⟩ idx (c :: rest)).2 =
          [] ++ (HybridExtractor.runCalls ⟨true⟩ idx rest).2 := by
        show (HybridExtractor.extractOne ⟨true⟩ idx c.text c.cid
          c.biobertOut).2 ++ _ = _
        rw [hb]
        rfl
      rw [hsplit, List.count_append, List.count_append, List.countP_cons]
      constructor
      · rw [ih.1]
        simp [hb]
      · rw [ih.2]
        rfl

/-- C4 (amended).  (i) Whenever the hybrid extractor falls back — BioBERT
unavailable since initialization, or erroring on the given call — the gene
mentions it returns are exactly the gene-typed part of its own FlashText
component's output, which is empty.  (ii) Initialization-time unavailability
is logged exactly once per session and never again per call.  (iii) A
per-call BioBERT error, however, is logged on every failing call — the
claim's "logged exactly once across repeated calls" holds only for the
initialization-failure mode (see `C4_counterexample`). -/
theorem C4_theorem :
    (∀ (cat : EntityCollectionS) (st : HybridExtractor.HState) (text : List Char)
      (cid : String) (bo : Option (List ExtractedEntity)),
      st.useBiobert = false ∨ bo = none →
      (HybridExtractor.extractOne st (FlashTextExtractor.buildLookupIndex cat)
          text cid bo).1.filter HybridExtractor.isGene =
        (FlashTextExtractor.extractEntities
          (FlashTextExtractor.buildLookupIndex cat) text cid).filter
          HybridExtractor.isGene ∧
      (FlashTextExtractor.extractEntities (FlashTextExtractor.buildLookupIndex cat)
        text cid).filter HybridExtractor.isGene = []) ∧
    (∀ (idx : EntityExtractor.Index) (calls : List HybridExtractor.CallIn),
      (HybridExtractor.session false idx calls).2.count
        HybridExtractor.LogEvent.initFallbackWarn = 1 ∧
      (HybridExtractor.session false idx calls).2.count
        HybridExtractor.LogEvent.callFallbackWarn = 0) ∧
    (∀ (idx : EntityExtractor.Index) (calls : List HybridExtractor.CallIn),
      (HybridExtractor.session true idx calls).2.count
        HybridExtractor.LogEvent.callFallbackWarn =
        calls.countP (fun c => c.biobertOut.isNone) ∧
      (HybridExtractor.session true idx calls).2.count
        HybridExtractor.LogEvent.initFallbackWarn = 0) := by
  refine ⟨?_, ?_, ?_⟩
  · intro cat st text cid bo hfb
    have hng := FT_extract_no_genes cat text cid
    refine ⟨?_, hng⟩
    obtain ⟨ub⟩ := st
    have hdd : ((FlashTextExtractor.extractEntities
        (FlashTextExtractor.buildLookupIndex cat) text cid).filter
        HybridExtractor.isDiseaseOrDrug).filter HybridExtractor.isGene = [] := by
      rw [List.filter_eq_nil_iff]
      intro m hm
      have h1 := (List.mem_filter.mp hm).2
      simp [dd_not_gene m h1]
    cases ub with
    | false =>
      show ((FlashTextExtractor.extractEntities _ text cid).filter
          HybridExtractor.isDiseaseOrDrug ++
        (FlashTextExtractor.extractEntities _ text cid).filter
          HybridExtractor.isGene).filter HybridExtractor.isGene = _
      rw [List.filter_append, hdd, hng]
      simp [hng]
    | true =>
      rcases hfb with hfb | hfb
      · exact absurd hfb (by simp)
      · rw [hfb]
        show ((FlashTextExtractor.extractEntities _ text cid).filter
            HybridExtractor.isDiseaseOrDrug ++
          (FlashTextExtractor.extractEntities _ text cid).filter
            HybridExtractor.isGene).filter HybridExtractor.isGene = _
        rw [List.filter_append, hdd, hng]
        simp [hng]
  · intro idx calls
    have hs : (HybridExtractor.session false idx calls).2 =
        [HybridExtractor.LogEvent.startInfo,
         HybridExtractor.LogEvent.initFallbackWarn] ++
        (HybridExtractor.runCalls ⟨false⟩ idx calls).2 := rfl
    rw [hs, runCalls_false_logs]
    exact ⟨rfl, rfl⟩
  · intro idx calls
    have hs : (HybridExtractor.session true idx calls).2 =
        [HybridExtractor.LogEvent.startInfo,
         HybridExtractor.LogEvent.loadedInfo] ++
        (HybridExtractor.runCalls ⟨true⟩ idx calls).2 := rfl
    have hw := runCalls_true_warns idx calls
    rw [hs, List.count_append, List.count_append]
    have h0 : [HybridExtractor.LogEvent.startInfo,
        HybridExtractor.LogEvent.loadedInfo].count
        HybridExtractor.LogEvent.callFallbackWarn = 0 := rfl
    have h1 : [HybridExtractor.LogEvent.startInfo,
        HybridExtractor.LogEvent.loadedInfo].count
        HybridExtractor.LogEvent.initFallbackWarn = 0 := rfl
    constructor
    · rw [h0, hw.1]; omega
    · rw [h1, hw.2]

/-- C4 witness: the fallback equality at a concrete unavailable-BioBERT
call. -/
theorem C4_witness :
    (HybridExtractor.extractOne ⟨false⟩ (FlashTextExtractor.buildLookupIndex {})
        "x".toList "c" none).1.filter HybridExtractor.isGene =
      (FlashTextExtractor.extractEntities (FlashTextExtractor.buildLookupIndex {})
        "x".toList "c").filter HybridExtractor.isGene ∧
    (FlashTextExtractor.extractEntities (FlashTextExtractor.buildLookupIndex {})
      "x".toList "c").filter HybridExtractor.isGene = [] :=
  C4_theorem.1 {} ⟨false⟩ "x".toList "c" none (Or.inl rfl)
